import Mathlib

/-!
Verification of the Whiplash playlist-aggregation engine.

This file shallowly embeds the aggregation route (`src/app/api/spotify/artists/route.ts`)
and the progress export/import layer of the main page component, and proves the
spec's claims about them.  JavaScript `Map`s are modelled as insertion-ordered
association lists, `Set`s as insertion-ordered duplicate-free lists, and JS
numbers as `ℚ`.  A JS truthiness test on an optional string (`if (!x)`) is
modelled by `strVal`, which maps both `null`/`undefined` and the empty string
to `none`.
-/

namespace Whiplash

/-- Value of an optional string under a JS truthiness test: `none` for
`null`/`undefined` and for the empty string (both are falsy in JS). -/
def strVal : Option String → Option String
  | none => none
  | some s => if s = "" then none else some s

/-- Raw artist object inside a track payload (`track.artists[i]`); `a?.id` and
`a?.name` may be absent, which is folded into the `Option`s. -/
structure SpArtist where
  id : Option String
  name : Option String
  deriving DecidableEq, Repr

/-- Raw track payload of a playlist item (`it.track`). -/
structure SpTrack where
  type : String
  id : Option String
  name : Option String
  artists : List SpArtist
  deriving DecidableEq, Repr

/-- Raw playlist item as returned by `fetchAllPlaylistTracks`. -/
structure SpItem where
  track : Option SpTrack
  deriving DecidableEq, Repr

/-- A playlist as returned by `fetchAllPlaylists`, together with the items that
`fetchAllPlaylistTracks` would return for it.  Only `id` is consulted by the
route before fetching; items of a playlist whose `id` is falsy are never
fetched nor processed. -/
structure Playlist where
  id : Option String
  items : List SpItem
  deriving DecidableEq, Repr

/-- Artist accumulator record (value type of `artistMap`). -/
structure ArtistRec where
  name : String
  songCount : Nat
  playlistCount : Nat
  imageUrl : Option String
  deriving DecidableEq, Repr

/-- Track accumulator record (value type of `trackPlaylistMap`). -/
structure TrackRec where
  name : String
  mainArtistId : Option String
  mainArtistName : String
  mainArtistImageUrl : Option String
  playlistCount : Nat
  deriving DecidableEq, Repr

/-- Insertion-ordered association list modelling a JS `Map`. -/
abbrev AMap := List (String × ArtistRec)

/-- Insertion-ordered association list modelling the track `Map`. -/
abbrev TMap := List (String × TrackRec)

/-- JS `Map.prototype.set`: update in place if the key is present (keeping its
position), append otherwise. -/
def mapSet {β : Type} : List (String × β) → String → β → List (String × β)
  | [], k, v => [(k, v)]
  | (k', v') :: rest, k, v =>
      if k' = k then (k', v) :: rest else (k', v') :: mapSet rest k v

/-- JS `Set.prototype.add` on an insertion-ordered duplicate-free list. -/
def addToSet (s : List String) (x : String) : List String :=
  if x ∈ s then s else s ++ [x]

/-- The mutable state of one scan: `uniqueTrackIds`, `artistMap` and
`trackPlaylistMap` from the route handler. -/
structure ScanState where
  uniqueTrackIds : List String
  artistMap : AMap
  trackPlaylistMap : TMap
  deriving DecidableEq, Repr

/-- The empty state the route starts from. -/
def initState : ScanState := ⟨[], [], []⟩

/-- One step of the `for (const a of track.artists ?? [])` loop inside the
`isNewUniqueTrack` branch: skip artists with falsy id or name, then either
increment `songCount` of an existing entry or create one with
`songCount = 1, playlistCount = 0`. -/
def creditArtist (m : AMap) (a : SpArtist) : AMap :=
  match strVal a.id, strVal a.name with
  | some artistId, some artistName =>
      match m.lookup artistId with
      | some prev => mapSet m artistId { prev with songCount := prev.songCount + 1 }
      | none => mapSet m artistId
          { name := artistName, songCount := 1, playlistCount := 0, imageUrl := none }
  | _, _ => m

/-- The whole `isNewUniqueTrack` artist loop. -/
def creditArtists (m : AMap) (as : List SpArtist) : AMap :=
  as.foldl creditArtist m

/-- One step of the playlist-presence artist loop: skip artists with falsy id
or name, record the id in `artistIdsInPlaylist`, and lazily create a
`songCount = 0` entry when the artist is not in the map yet. -/
def presenceArtist (p : List String × AMap) (a : SpArtist) : List String × AMap :=
  match strVal a.id, strVal a.name with
  | some artistId, some artistName =>
      (addToSet p.1 artistId,
       if (p.2.lookup artistId).isSome then p.2
       else mapSet p.2 artistId
         { name := artistName, songCount := 0, playlistCount := 0, imageUrl := none })
  | _, _ => p

/-- The whole playlist-presence artist loop. -/
def presenceArtists (p : List String × AMap) (as : List SpArtist) : List String × AMap :=
  as.foldl presenceArtist p

/-- State threaded through one playlist's item loop: the scan state plus the
playlist-local sets `artistIdsInPlaylist` and `trackIdsInPlaylist`. -/
structure LoopState where
  scan : ScanState
  aIn : List String
  tIn : List String
  deriving DecidableEq, Repr

/-- `if (!trackPlaylistMap.has(trackId))`: create the track accumulator entry
on first global sight, with main-artist fields from the first raw artist. -/
def trackCreateStep (scan : ScanState) (track : SpTrack) (trackId : String) : ScanState :=
  if (scan.trackPlaylistMap.lookup trackId).isSome then scan
  else
    let mainArtist := track.artists.head?
    let r : TrackRec :=
      { name := track.name.getD "Unknown track"
        mainArtistId := mainArtist.bind (·.id)
        mainArtistName := (mainArtist.bind (·.name)).getD "Unknown artist"
        mainArtistImageUrl := none
        playlistCount := 0 }
    { scan with trackPlaylistMap := mapSet scan.trackPlaylistMap trackId r }

/-- The `isNewUniqueTrack` branch: mark the id globally seen and credit
`songCount` for every contributing artist. -/
def uniqueStep (scan : ScanState) (track : SpTrack) (trackId : String) : ScanState :=
  if trackId ∈ scan.uniqueTrackIds then scan
  else
    { scan with
        uniqueTrackIds := scan.uniqueTrackIds ++ [trackId],
        artistMap := creditArtists scan.artistMap track.artists }

/-- The non-skipped part of the item-loop body: add the id to
`trackIdsInPlaylist`, create the track accumulator on first global sight,
credit `songCount` for a globally new unique track, then run the
playlist-presence artist loop. -/
def processTrack (ls : LoopState) (track : SpTrack) (trackId : String) : LoopState :=
  let scan := uniqueStep (trackCreateStep ls.scan track trackId) track trackId
  let pres := presenceArtists (ls.aIn, scan.artistMap) track.artists
  { scan := { scan with artistMap := pres.2 }, aIn := pres.1,
    tIn := addToSet ls.tIn trackId }

/-- The body of `for (const it of items)` in the route handler, in source
order: skip items without a payload, with a non-`"track"` type tag, or with a
falsy id (local files), then process the track. -/
def processItem (ls : LoopState) (it : SpItem) : LoopState :=
  match it.track with
  | none => ls
  | some track =>
    if track.type ≠ "track" then ls
    else
      match strVal track.id with
      | none => ls
      | some trackId => processTrack ls track trackId

/-- One end-of-playlist artist bump:
`const rec = artistMap.get(artistId); if (rec) rec.playlistCount += 1`. -/
def bumpA (m : AMap) (artistId : String) : AMap :=
  match m.lookup artistId with
  | some r => mapSet m artistId { r with playlistCount := r.playlistCount + 1 }
  | none => m

/-- End-of-playlist loop bumping `playlistCount` once per artist id seen in
this playlist. -/
def bumpArtists (m : AMap) (ids : List String) : AMap :=
  ids.foldl bumpA m

/-- One end-of-playlist track bump. -/
def bumpT (m : TMap) (trackId : String) : TMap :=
  match m.lookup trackId with
  | some r => mapSet m trackId { r with playlistCount := r.playlistCount + 1 }
  | none => m

/-- End-of-playlist loop bumping `playlistCount` once per track id seen in
this playlist. -/
def bumpTracks (m : TMap) (ids : List String) : TMap :=
  ids.foldl bumpT m

/-- The body of `for (const pl of playlists)`: skip playlists with a falsy id
(their items are never fetched), run the item loop with fresh playlist-local
sets, then apply the two end-of-playlist `playlistCount` bumps. -/
def processPlaylist (st : ScanState) (pl : Playlist) : ScanState :=
  match strVal pl.id with
  | none => st
  | some _ =>
    let ls := pl.items.foldl processItem { scan := st, aIn := [], tIn := [] }
    { ls.scan with
        artistMap := bumpArtists ls.scan.artistMap ls.aIn,
        trackPlaylistMap := bumpTracks ls.scan.trackPlaylistMap ls.tIn }

/-- The whole playlist loop of the route handler, starting from empty state. -/
def runScan (playlists : List Playlist) : ScanState :=
  playlists.foldl processPlaylist initState

/-! ### Enrichment step (artist images) -/

/-- An image object in artist metadata (`a.images[0]?.url` may be absent). -/
structure ImageObj where
  url : Option String
  deriving DecidableEq, Repr

/-- Artist metadata returned by `fetchArtistsByIds`; `images = none` models a
missing or non-array `images` property (`Array.isArray` fails). -/
structure ArtistObj where
  id : Option String
  images : Option (List ImageObj)
  deriving DecidableEq, Repr

/-- Image extraction per artist object:
`Array.isArray(a?.images) && a.images.length > 0 ? (a.images[0]?.url ?? null) : null`. -/
def imageOf (a : ArtistObj) : Option String :=
  match a.images with
  | some (img :: _) => img.url
  | _ => none

/-- The batched image fetch and backfill (lines 129–153 of the route). A
no-op when the artist map is empty; otherwise the `imageByArtistId` map is
built (later duplicate ids overwrite earlier ones) and both accumulator maps
are backfilled in place. -/
def enrich (st : ScanState) (fetchArtists : List String → List ArtistObj) : ScanState :=
  if (st.artistMap.map (·.1)).length > 0 then
    let artistObjs := fetchArtists (st.artistMap.map (·.1))
    let imageByArtistId : List (String × Option String) :=
      artistObjs.foldl (fun m a =>
        match strVal a.id with
        | none => m
        | some id => mapSet m id (imageOf a)) []
    { st with
        artistMap := st.artistMap.map (fun p =>
          (p.1, { p.2 with imageUrl := (imageByArtistId.lookup p.1).getD none })),
        trackPlaylistMap := st.trackPlaylistMap.map (fun p =>
          match strVal p.2.mainArtistId with
          | some mid =>
              (p.1, { p.2 with mainArtistImageUrl := (imageByArtistId.lookup mid).getD none })
          | none => (p.1, p.2)) }
  else st

/-! ### Ranking & percentage builder

JS `Array.prototype.sort(cmp)` is modelled as a stable insertion sort driven
by an `Ordering`-valued comparator; `x` sorts strictly before `y` exactly when
`cmp x y = .lt` (i.e. the JS comparator returns a negative number), and ties
keep their original relative order, as guaranteed by the ECMAScript spec. -/

/-- Three-way comparison derived from a linear order. -/
def cmpv {α : Type} [LinearOrder α] (a b : α) : Ordering :=
  if a < b then .lt else if a = b then .eq else .gt

/-- Model of JS `String.prototype.localeCompare` with default options: the
primary comparison is case-insensitive (lowercased code-point order); strings
equal ignoring case are ordered lowercase-first, matching the default ICU
tertiary level (so `"abc"` sorts before `"ABC"`). -/
def localeCompare (a b : String) : Ordering :=
  (cmpv a.toLower b.toLower).then (cmpv b a)

/-- Stable insertion of `x` into a sorted list: `x` goes before the first
element that does not sort strictly before it, so existing ties keep their
order and `x` precedes elements equal to it that were originally after it. -/
def insertCmp {α : Type} (cmp : α → α → Ordering) (x : α) : List α → List α
  | [] => [x]
  | y :: ys => if cmp y x = .lt then y :: insertCmp cmp x ys else x :: y :: ys

/-- Stable sort by a comparator, modelling JS `Array.prototype.sort`. -/
def sortByCmp {α : Type} (cmp : α → α → Ordering) (l : List α) : List α :=
  l.foldr (insertCmp cmp) []

/-- The `ArtistAgg` rows built from `artistMap` entries (route lines 155–161). -/
structure ArtistAgg where
  artistId : String
  artistName : String
  songCount : Nat
  playlistCount : Nat
  imageUrl : Option String
  deriving DecidableEq, Repr

/-- `Array.from(artistMap.entries()).map(...)` in map iteration order. -/
def scanArtists (st : ScanState) : List ArtistAgg :=
  st.artistMap.map (fun p =>
    { artistId := p.1, artistName := p.2.name, songCount := p.2.songCount,
      playlistCount := p.2.playlistCount, imageUrl := p.2.imageUrl })

/-- The comparator `(a, b) => b.songCount - a.songCount || a.artistName.localeCompare(b.artistName)`. -/
def cmpBySongs (a b : ArtistAgg) : Ordering :=
  (cmpv b.songCount a.songCount).then (localeCompare a.artistName b.artistName)

/-- The comparator `(a, b) => b.playlistCount - a.playlistCount || a.artistName.localeCompare(b.artistName)`. -/
def cmpByPlaylists (a b : ArtistAgg) : Ordering :=
  (cmpv b.playlistCount a.playlistCount).then (localeCompare a.artistName b.artistName)

/-- `const pct = (x, denom) => (denom > 0 ? (x / denom) * 100 : 0)`. -/
def pct (x denom : ℚ) : ℚ :=
  if denom > 0 then x / denom * 100 else 0

/-- Entry shape of the two top-artist rankings. -/
structure TopArtistEntry where
  artistId : String
  artistName : String
  imageUrl : Option String
  value : Nat
  percent : ℚ
  deriving DecidableEq, Repr

/-- Row shape of the track ranking in the JSON response (after the response
mapping adds `percent`). -/
structure TopTrackEntry where
  trackId : String
  trackName : String
  mainArtistId : Option String
  mainArtistName : String
  mainArtistImageUrl : Option String
  playlistCount : Nat
  percent : ℚ
  deriving DecidableEq, Repr

/-- Row shape of the full artist table. -/
structure ArtistRow where
  artistId : String
  artistName : String
  imageUrl : Option String
  songCount : Nat
  songPercent : ℚ
  playlistCount : Nat
  playlistPercent : ℚ
  deriving DecidableEq, Repr

/-- Entry shape of the flat `artists` deck list. -/
structure DeckArtist where
  artistId : String
  artistName : String
  imageUrl : Option String
  trackCount : Nat
  deriving DecidableEq, Repr

/-- The `totals` object of the response. -/
structure Totals where
  totalPlaylists : Nat
  totalArtists : Nat
  totalUniqueTracks : Nat
  deriving DecidableEq, Repr

/-- The JSON payload of a successful scan (the Snapshot). -/
structure Snapshot where
  totals : Totals
  topArtistsBySongs : List TopArtistEntry
  topArtistsByPlaylists : List TopArtistEntry
  topTracksByPlaylists : List TopTrackEntry
  artistTable : List ArtistRow
  artists : List DeckArtist
  deriving DecidableEq, Repr

/-- `artists.sort(...)` at route line 164: the deck-order sort by songs
descending, name ascending. -/
def sortedArtists (st : ScanState) : List ArtistAgg :=
  sortByCmp cmpBySongs (scanArtists st)

/-- `topArtistsBySongs` (route lines 168–177): re-sort a copy of the already
sorted array with the same comparator, take 5, map to entries whose percent
divides by `totalUniqueTracks`. -/
def topBySongs (artists : List ArtistAgg) (totalUniqueTracks : Nat) : List TopArtistEntry :=
  ((sortByCmp cmpBySongs artists).take 5).map (fun a =>
    { artistId := a.artistId, artistName := a.artistName, imageUrl := a.imageUrl,
      value := a.songCount, percent := pct a.songCount totalUniqueTracks })

/-- `topArtistsByPlaylists` (route lines 179–188): percent divides by
`totalPlaylists`. -/
def topByPlaylists (artists : List ArtistAgg) (totalPlaylists : Nat) : List TopArtistEntry :=
  ((sortByCmp cmpByPlaylists artists).take 5).map (fun a =>
    { artistId := a.artistId, artistName := a.artistName, imageUrl := a.imageUrl,
      value := a.playlistCount, percent := pct a.playlistCount totalPlaylists })

/-- Intermediate row of `topTracksByPlaylists` before the response mapping. -/
structure TrackAggRow where
  trackId : String
  trackName : String
  mainArtistId : Option String
  mainArtistName : String
  mainArtistImageUrl : Option String
  playlistCount : Nat
  deriving DecidableEq, Repr

/-- The comparator `(a, b) => b.playlistCount - a.playlistCount || a.trackName.localeCompare(b.trackName)`. -/
def cmpTrackRows (a b : TrackAggRow) : Ordering :=
  (cmpv b.playlistCount a.playlistCount).then (localeCompare a.trackName b.trackName)

/-- `topTracksByPlaylists` (route lines 190–200 plus the response mapping at
lines 220–223 that adds `percent`). -/
def topTracks (st : ScanState) (totalPlaylists : Nat) : List TopTrackEntry :=
  let rows : List TrackAggRow := st.trackPlaylistMap.map (fun p =>
    { trackId := p.1, trackName := p.2.name, mainArtistId := p.2.mainArtistId,
      mainArtistName := p.2.mainArtistName, mainArtistImageUrl := p.2.mainArtistImageUrl,
      playlistCount := p.2.playlistCount })
  ((sortByCmp cmpTrackRows rows).take 5).map (fun t =>
    { trackId := t.trackId, trackName := t.trackName, mainArtistId := t.mainArtistId,
      mainArtistName := t.mainArtistName, mainArtistImageUrl := t.mainArtistImageUrl,
      playlistCount := t.playlistCount, percent := pct t.playlistCount totalPlaylists })

/-- `artistTable` (route lines 202–210). -/
def artistTableOf (artists : List ArtistAgg) (totalUniqueTracks totalPlaylists : Nat) :
    List ArtistRow :=
  artists.map (fun a =>
    { artistId := a.artistId, artistName := a.artistName, imageUrl := a.imageUrl,
      songCount := a.songCount, songPercent := pct a.songCount totalUniqueTracks,
      playlistCount := a.playlistCount, playlistPercent := pct a.playlistCount totalPlaylists })

/-- Assembly of the full response payload (route lines 32–231 after the token
check): scan, enrich, sort, and derive all five views. -/
def buildSnapshot (playlists : List Playlist) (fetchArtists : List String → List ArtistObj) :
    Snapshot :=
  let totalPlaylists := playlists.length
  let st0 := runScan playlists
  let totalUniqueTracks := st0.uniqueTrackIds.length
  let st := enrich st0 fetchArtists
  let artists := sortedArtists st
  { totals := ⟨totalPlaylists, artists.length, totalUniqueTracks⟩
    topArtistsBySongs := topBySongs artists totalUniqueTracks
    topArtistsByPlaylists := topByPlaylists artists totalPlaylists
    topTracksByPlaylists := topTracks st totalPlaylists
    artistTable := artistTableOf artists totalUniqueTracks totalPlaylists
    artists := artists.map (fun a =>
      { artistId := a.artistId, artistName := a.artistName,
        imageUrl := a.imageUrl, trackCount := a.songCount }) }

/-! ### The GET handler with its provider-call trace -/

/-- One call to the external fetch provider. -/
inductive FetchCall where
  | playlists
  | playlistTracks (playlistId : String)
  | artistsByIds (ids : List String)
  deriving DecidableEq, Repr

/-- Result of the GET handler: either an error response with HTTP status and
`error` body field, or the snapshot payload. -/
inductive GetResult where
  | err (status : Nat) (error : String)
  | ok (snap : Snapshot)
  deriving DecidableEq, Repr

/-- The track-fetch calls issued by the playlist loop: one
`fetchAllPlaylistTracks` call per playlist with a truthy id, in order. -/
def scanCalls (playlists : List Playlist) : List FetchCall :=
  playlists.filterMap (fun pl => (strVal pl.id).map FetchCall.playlistTracks)

/-- The GET handler. `token` is what `getAccessToken` returns, `playlists`
what `fetchAllPlaylists` would return, and `fetchArtists` what
`fetchArtistsByIds` would return; the second component is the ordered list of
fetch-provider calls the handler performs. A falsy token returns 401
`not_authenticated` before any provider call. -/
def GET (token : Option String) (playlists : List Playlist)
    (fetchArtists : List String → List ArtistObj) : GetResult × List FetchCall :=
  match strVal token with
  | none => (.err 401 "not_authenticated", [])
  | some _ =>
    let st0 := runScan playlists
    let artistCalls :=
      if (st0.artistMap.map (·.1)).length > 0
      then [FetchCall.artistsByIds (st0.artistMap.map (·.1))] else []
    (.ok (buildSnapshot playlists fetchArtists),
     FetchCall.playlists :: (scanCalls playlists ++ artistCalls))

/-! ### The page component: progress export / import

The page component (the client `Home` component) stores the parsed snapshot,
the review decisions, the deck index, the insight page and the view mode.
`JSON.parse` / `JSON.stringify` are platform builtins, not repository code;
they are modelled at the level of the JSON value tree they exchange, so the
theorems below verify the repository's own layers: the `ProgressFileV1`
structure written by `exportProgress`, the `isProgressFileV1` validation, and
the field restoration in `onResumeFileSelected`. -/

/-- A JSON value; JS numbers are modelled as `ℚ`. -/
inductive JsonValue where
  | null
  | bool (b : Bool)
  | num (q : ℚ)
  | str (s : String)
  | arr (elems : List JsonValue)
  | obj (fields : List (String × JsonValue))

/-- JS truthiness of a JSON value (objects and arrays are always truthy). -/
def truthy : JsonValue → Bool
  | .null => false
  | .bool b => b
  | .num q => q ≠ 0
  | .str s => s ≠ ""
  | .arr _ => true
  | .obj _ => true

/-- Property access `x.f`: `none` models `undefined` (missing property, or
access on a non-object). -/
def getField : JsonValue → String → Option JsonValue
  | .obj fields, k => fields.lookup k
  | _, _ => none

/-- The `isProgressFileV1` structural validator from the page component, as a
conjunction in source order: truthy root, `version === 1`, string
`exportedAt`, truthy `data` with truthy `data.totals` and an array
`data.artists`, a present `deckIndex`, and a truthy object `decisions`. -/
def isProgressFileV1 (x : JsonValue) : Bool :=
  truthy x &&
  (match getField x "version" with | some (.num q) => q == 1 | _ => false) &&
  (match getField x "exportedAt" with | some (.str _) => true | _ => false) &&
  (match getField x "data" with
   | some d =>
      truthy d &&
      (match getField d "totals" with | some t => truthy t | none => false) &&
      (match getField d "artists" with | some (.arr _) => true | _ => false)
   | none => false) &&
  (getField x "deckIndex").isSome &&
  (match getField x "decisions" with
   | some dec =>
      truthy dec &&
      (match dec with | .obj _ => true | .arr _ => true | .null => true | _ => false)
   | none => false)

/-- `safeNumber`: `Number(n)` with a fallback when the result is not finite.
`undefined`, strings and containers are modelled as yielding the fallback (as
for `NaN`); this diverges from JS only for numeric strings and singleton
arrays, which no claim exercises. -/
def safeNumber (o : Option JsonValue) (fallback : ℚ) : ℚ :=
  match o with
  | some (.num q) => q
  | some (.bool true) => 1
  | some (.bool false) => 0
  | some .null => 0
  | _ => fallback

/-- The page view mode. -/
inductive Mode where
  | start
  | insights
  | deck
  deriving DecidableEq, Repr

/-- The serialized name of a view mode. -/
def modeStr : Mode → String
  | .start => "start"
  | .insights => "insights"
  | .deck => "deck"

/-- The in-memory state of the page component that export/import touches. -/
structure HomeState where
  data : Option JsonValue
  decisions : JsonValue
  deckIndex : ℚ
  insightPage : ℚ
  mode : Mode
  error : Option String

/-- The `ProgressFileV1` object built by `exportProgress` (field order as in
the object literal); a `mode` of `start` is exported as `insights`. -/
def progressFile (data : JsonValue) (deckIndex : ℚ) (decisions : JsonValue)
    (insightPage : ℚ) (mode : Mode) (exportedAt : String) : JsonValue :=
  .obj [("version", .num 1),
        ("exportedAt", .str exportedAt),
        ("data", data),
        ("deckIndex", .num deckIndex),
        ("decisions", decisions),
        ("insightPage", .num insightPage),
        ("mode", .str (modeStr (if mode = .start then .insights else mode)))]

/-- `exportProgress`: a no-op when no snapshot is loaded, otherwise the
progress file built from the current state. -/
def exportProgress (st : HomeState) (exportedAt : String) : Option JsonValue :=
  st.data.map (fun d =>
    progressFile d st.deckIndex st.decisions st.insightPage st.mode exportedAt)

/-- The `onResumeFileSelected` handler after the file has been read: `parsed`
is the outcome of `JSON.parse` (`.error msg` models a parse exception with
message `msg`). `setError(null)` runs first; a file failing
`isProgressFileV1` throws `"Invalid progress file."`, and the catch block
records the message and falls back to the start screen. On success every
stored field is replaced from the file. -/
def onResumeFileSelected (st : HomeState) (parsed : Except String JsonValue) : HomeState :=
  let st := { st with error := none }
  match parsed with
  | .error msg =>
      { st with
          error := some (if msg = "" then "Failed to import progress file." else msg),
          mode := .start }
  | .ok p =>
      if isProgressFileV1 p then
        { data := getField p "data"
          decisions := (getField p "decisions").getD (.obj [])
          deckIndex := safeNumber (getField p "deckIndex") 0
          insightPage := safeNumber (getField p "insightPage") 0
          mode := match getField p "mode" with
                  | some (.str s) => if s = "deck" then .deck else .insights
                  | _ => .insights
          error := none }
      else
        { st with error := some "Invalid progress file.", mode := .start }

/-- `pct1` from the page component: `Math.round(x * 10) / 10` (Mathlib's
`round` is `⌊x + 1/2⌋`, which matches `Math.round`'s half-up behaviour). -/
def pct1 (x : ℚ) : ℚ :=
  (round (x * 10) : ℤ) / 10

/-! ### JSON encoding of a snapshot (the exported/persisted contract) -/

/-- Encode an optional string as a JSON value (`null` for `none`). -/
def jsonOpt : Option String → JsonValue
  | none => .null
  | some s => .str s

/-- Encode one top-artist entry with the exact exported field names. -/
def encodeTopArtist (e : TopArtistEntry) : JsonValue :=
  .obj [("artistId", .str e.artistId), ("artistName", .str e.artistName),
        ("imageUrl", jsonOpt e.imageUrl), ("value", .num e.value),
        ("percent", .num e.percent)]

/-- Encode one top-track entry with the exact exported field names. -/
def encodeTopTrack (e : TopTrackEntry) : JsonValue :=
  .obj [("trackId", .str e.trackId), ("trackName", .str e.trackName),
        ("mainArtistId", jsonOpt e.mainArtistId), ("mainArtistName", .str e.mainArtistName),
        ("mainArtistImageUrl", jsonOpt e.mainArtistImageUrl),
        ("playlistCount", .num e.playlistCount), ("percent", .num e.percent)]

/-- Encode one artist-table row with the exact exported field names. -/
def encodeArtistRow (e : ArtistRow) : JsonValue :=
  .obj [("artistId", .str e.artistId), ("artistName", .str e.artistName),
        ("imageUrl", jsonOpt e.imageUrl), ("songCount", .num e.songCount),
        ("songPercent", .num e.songPercent), ("playlistCount", .num e.playlistCount),
        ("playlistPercent", .num e.playlistPercent)]

/-- Encode one deck entry with the exact exported field names. -/
def encodeDeckArtist (e : DeckArtist) : JsonValue :=
  .obj [("artistId", .str e.artistId), ("artistName", .str e.artistName),
        ("imageUrl", jsonOpt e.imageUrl), ("trackCount", .num e.trackCount)]

/-- Encode a snapshot as the JSON object the route responds with and the
progress file persists. -/
def encodeSnapshot (s : Snapshot) : JsonValue :=
  .obj [("totals", .obj [("totalPlaylists", .num s.totals.totalPlaylists),
                         ("totalArtists", .num s.totals.totalArtists),
                         ("totalUniqueTracks", .num s.totals.totalUniqueTracks)]),
        ("topArtistsBySongs", .arr (s.topArtistsBySongs.map encodeTopArtist)),
        ("topArtistsByPlaylists", .arr (s.topArtistsByPlaylists.map encodeTopArtist)),
        ("topTracksByPlaylists", .arr (s.topTracksByPlaylists.map encodeTopTrack)),
        ("artistTable", .arr (s.artistTable.map encodeArtistRow)),
        ("artists", .arr (s.artists.map encodeDeckArtist))]

/-- Encode a `Decisions` record (`artistId -> seen?`). -/
def encodeDecisions (d : List (String × Bool)) : JsonValue :=
  .obj (d.map (fun p => (p.1, .bool p.2)))

/-! ### Verification accessors and spec-side definitions -/

/-- Observed `playlistCount` of an artist id (0 when absent). -/
def aPl (m : AMap) (k : String) : Nat :=
  ((m.lookup k).map (·.playlistCount)).getD 0

/-- Observed `songCount` of an artist id (0 when absent). -/
def aSong (m : AMap) (k : String) : Nat :=
  ((m.lookup k).map (·.songCount)).getD 0

/-- Observed `playlistCount` of a track id (0 when absent). -/
def tPl (m : TMap) (k : String) : Nat :=
  ((m.lookup k).map (·.playlistCount)).getD 0

/-- The artist id credited by the `songCount`/presence loops for one raw
artist entry: `none` when `if (!artistId || !artistName) continue` skips it. -/
def creditedId (a : SpArtist) : Option String :=
  match strVal a.id, strVal a.name with
  | some i, some _ => some i
  | _, _ => none

/-- The credited artist ids of a raw artist list, in order. -/
def creditedIds (as : List SpArtist) : List String :=
  as.filterMap creditedId

/-- The track id the item loop processes for one playlist item: `none` when
the item is skipped (no payload, wrong type tag, or falsy id). -/
def itemId (it : SpItem) : Option String :=
  it.track.bind (fun t => if t.type = "track" then strVal t.id else none)

/-- The playable track ids of an item list, in order, skipped items omitted. -/
def playableIds (items : List SpItem) : List String :=
  items.filterMap itemId

/-- The playable track ids the scan actually processes: those of playlists
with a truthy id (other playlists' items are never fetched). -/
def scannedIds (playlists : List Playlist) : List String :=
  (playlists.filter (fun pl => (strVal pl.id).isSome)).flatMap (fun pl => playableIds pl.items)

/-- Input well-formedness used by the song-count invariants: no raw track
credits the same artist id twice. The upstream catalog guarantees this; the
aggregation code itself does not defend against its violation. -/
def WellFormed (playlists : List Playlist) : Prop :=
  ∀ pl ∈ playlists, ∀ it ∈ pl.items, ∀ t ∈ it.track.toList, (creditedIds t.artists).Nodup

instance wellFormedDecidable (pls : List Playlist) : Decidable (WellFormed pls) :=
  inferInstanceAs (Decidable (∀ pl ∈ pls, ∀ it ∈ pl.items, ∀ t ∈ it.track.toList,
    (creditedIds t.artists).Nodup))

/-- Modelled from the spec: the ranking order of the top-5-by-songs view,
"sort artists descending by `songCount`, tie-break ascending by
case-insensitive display name". -/
def specLeSongs (a b : ArtistAgg) : Prop :=
  b.songCount < a.songCount ∨
    (b.songCount = a.songCount ∧ a.artistName.toLower ≤ b.artistName.toLower)

/-- A playable item for track `tid` credited to the given raw artists. -/
def mkItem (tid : String) (as : List SpArtist) : SpItem :=
  ⟨some ⟨"track", some tid, some tid, as⟩⟩

/-- A fetch-artists provider returning no metadata. -/
def noMeta : List String → List ArtistObj := fun _ => []

/-- Concrete input for claim C1: one playlist with track t1 by Alice and
track t2 by Alice and Bob, so Alice's percent is 100 and Bob's is 50. -/
def c1Input : List Playlist :=
  [⟨some "p1", [mkItem "t1" [⟨some "a1", some "Alice"⟩],
                mkItem "t2" [⟨some "a1", some "Alice"⟩, ⟨some "a2", some "Bob"⟩]]⟩]

/-- Concrete input for claim C5: a single track crediting the same artist id
twice, which double-increments `songCount`. -/
def c5Input : List Playlist :=
  [⟨some "p1", [mkItem "t1" [⟨some "a1", some "Alice"⟩, ⟨some "a1", some "Alice"⟩]]⟩]

/-- Concrete well-formed input used by witnesses: one playlist, one track by
one artist. -/
def demoInput : List Playlist :=
  [⟨some "p1", [mkItem "t1" [⟨some "a1", some "Alice"⟩]]⟩]

/-- Concrete prior page state (deck view) used by the C2 analysis. -/
def c2Prior : HomeState :=
  { data := none, decisions := .obj [], deckIndex := 0, insightPage := 0,
    mode := .deck, error := none }

/-! ## Lemmas: association-list maps -/

theorem lookup_cons_eq_if {β : Type} (a k : String) (b : β) (es : List (String × β)) :
    List.lookup a ((k, b) :: es) = if a = k then some b else es.lookup a := by
  by_cases h : a = k
  · simp [List.lookup_cons, h]
  · simp only [List.lookup_cons, beq_eq_false_iff_ne.mpr h, if_neg h]

theorem lookup_mapSet {β : Type} (m : List (String × β)) (k k' : String) (v : β) :
    (mapSet m k v).lookup k' = if k' = k then some v else m.lookup k' := by
  induction m with
  | nil => simp [mapSet, lookup_cons_eq_if]
  | cons p rest ih =>
    obtain ⟨k₀, v₀⟩ := p
    by_cases h : k₀ = k
    · subst h
      by_cases h' : k' = k₀ <;> simp [mapSet, lookup_cons_eq_if, h']
    · by_cases h' : k' = k₀
      · subst h'
        simp [mapSet, h, lookup_cons_eq_if, if_neg (Ne.symm h)]
      · simp [mapSet, h, lookup_cons_eq_if, h', ih]

theorem lookup_eq_none_iff {β : Type} (m : List (String × β)) (k : String) :
    m.lookup k = none ↔ k ∉ m.map Prod.fst := by
  induction m with
  | nil => simp
  | cons p rest ih =>
    obtain ⟨k₀, v₀⟩ := p
    by_cases h : k = k₀ <;> simp [lookup_cons_eq_if, h, ih]

theorem keys_mapSet {β : Type} (m : List (String × β)) (k : String) (v : β) :
    (mapSet m k v).map Prod.fst
      = if (m.lookup k).isSome then m.map Prod.fst else m.map Prod.fst ++ [k] := by
  induction m with
  | nil => simp [mapSet]
  | cons p rest ih =>
    obtain ⟨k₀, v₀⟩ := p
    by_cases h : k₀ = k
    · subst h; simp [mapSet, lookup_cons_eq_if]
    · have h' : k ≠ k₀ := Ne.symm h
      simp only [mapSet, if_neg h, List.map_cons, lookup_cons_eq_if, if_neg h', ih]
      split <;> simp

theorem keysNodup_mapSet {β : Type} (m : List (String × β)) (k : String) (v : β)
    (h : (m.map Prod.fst).Nodup) : ((mapSet m k v).map Prod.fst).Nodup := by
  rw [keys_mapSet]
  split
  · exact h
  · next hnone =>
    rw [List.nodup_append]
    refine ⟨h, List.nodup_singleton k, ?_⟩
    intro x hx hk
    simp at hk
    subst hk
    rw [Option.not_isSome_iff_eq_none] at hnone
    exact (lookup_eq_none_iff m x).mp hnone hx

theorem lookup_of_mem {β : Type} (m : List (String × β)) (k : String) (v : β)
    (hnd : (m.map Prod.fst).Nodup) (hmem : (k, v) ∈ m) : m.lookup k = some v := by
  induction m with
  | nil => simp at hmem
  | cons p rest ih =>
    obtain ⟨k₀, v₀⟩ := p
    simp only [List.map_cons, List.nodup_cons] at hnd
    rcases List.mem_cons.mp hmem with h | h
    · cases h
      simp [lookup_cons_eq_if]
    · have hk : k ≠ k₀ := by
        rintro rfl
        exact hnd.1 (List.mem_map.mpr ⟨(k, v), h, rfl⟩)
      simp [lookup_cons_eq_if, hk, ih hnd.2 h]

/-! ## Lemmas: count observations of the primitive steps -/

theorem aPl_mapSet (m : AMap) (k k' : String) (v : ArtistRec) :
    aPl (mapSet m k v) k' = if k' = k then v.playlistCount else aPl m k' := by
  simp only [aPl, lookup_mapSet]
  split <;> simp

theorem aSong_mapSet (m : AMap) (k k' : String) (v : ArtistRec) :
    aSong (mapSet m k v) k' = if k' = k then v.songCount else aSong m k' := by
  simp only [aSong, lookup_mapSet]
  split <;> simp

theorem tPl_mapSet (m : TMap) (k k' : String) (v : TrackRec) :
    tPl (mapSet m k v) k' = if k' = k then v.playlistCount else tPl m k' := by
  simp only [tPl, lookup_mapSet]
  split <;> simp

theorem aPl_creditArtist (m : AMap) (a : SpArtist) (k : String) :
    aPl (creditArtist m a) k = aPl m k := by
  unfold creditArtist
  cases hid : strVal a.id with
  | none => rfl
  | some i =>
    cases hn : strVal a.name with
    | none => rfl
    | some n =>
      cases hl : m.lookup i with
      | some prev =>
        simp only [hl, aPl_mapSet]
        split
        · next hk => subst hk; simp [aPl, hl]
        · rfl
      | none =>
        simp only [hl, aPl_mapSet]
        split
        · next hk => subst hk; simp [aPl, hl]
        · rfl

theorem aSong_creditArtist (m : AMap) (a : SpArtist) (k : String) :
    aSong (creditArtist m a) k
      = if creditedId a = some k then aSong m k + 1 else aSong m k := by
  unfold creditArtist creditedId
  cases hid : strVal a.id with
  | none => simp
  | some i =>
    cases hn : strVal a.name with
    | none => simp
    | some n =>
      cases hl : m.lookup i with
      | some prev =>
        simp only [hl, aSong_mapSet, Option.some.injEq]
        by_cases hk : k = i
        · subst hk; simp [aSong, hl]
        · rw [if_neg hk, if_neg (Ne.symm hk)]
      | none =>
        simp only [hl, aSong_mapSet, Option.some.injEq]
        by_cases hk : k = i
        · subst hk; simp [aSong, hl]
        · rw [if_neg hk, if_neg (Ne.symm hk)]

theorem creditArtists_cons (m : AMap) (a : SpArtist) (as : List SpArtist) :
    creditArtists m (a :: as) = creditArtists (creditArtist m a) as := rfl

theorem aPl_creditArtists (m : AMap) (as : List SpArtist) (k : String) :
    aPl (creditArtists m as) k = aPl m k := by
  induction as generalizing m with
  | nil => rfl
  | cons a as ih => rw [creditArtists_cons, ih, aPl_creditArtist]

theorem creditedIds_cons (a : SpArtist) (as : List SpArtist) :
    creditedIds (a :: as)
      = match creditedId a with
        | some i => i :: creditedIds as
        | none => creditedIds as := by
  simp only [creditedIds, List.filterMap_cons]
  cases creditedId a <;> rfl

theorem aSong_creditArtists_not_mem (m : AMap) (as : List SpArtist) (k : String)
    (h : k ∉ creditedIds as) : aSong (creditArtists m as) k = aSong m k := by
  induction as generalizing m with
  | nil => rfl
  | cons a as ih =>
    rw [creditedIds_cons] at h
    rw [creditArtists_cons]
    cases hc : creditedId a with
    | none =>
      rw [ih _ (by simpa [hc] using h), aSong_creditArtist, if_neg (by simp [hc])]
    | some i =>
      rw [hc] at h
      simp only [List.mem_cons, not_or] at h
      rw [ih _ h.2, aSong_creditArtist, hc, if_neg (by simpa using Ne.symm h.1)]

theorem aSong_creditArtists_le (m : AMap) (as : List SpArtist) (k : String)
    (h : (creditedIds as).Nodup) : aSong (creditArtists m as) k ≤ aSong m k + 1 := by
  induction as generalizing m with
  | nil => exact Nat.le_succ _
  | cons a as ih =>
    rw [creditedIds_cons] at h
    rw [creditArtists_cons]
    cases hc : creditedId a with
    | none =>
      rw [hc] at h
      have := ih (creditArtist m a) h
      rwa [aSong_creditArtist, if_neg (by simp [hc])] at this
    | some i =>
      rw [hc] at h
      rw [List.nodup_cons] at h
      by_cases hk : k = i
      · subst hk
        rw [aSong_creditArtists_not_mem _ _ _ h.1, aSong_creditArtist, hc, if_pos rfl]
      · have := ih (creditArtist m a) h.2
        rwa [aSong_creditArtist, hc, if_neg (by simpa using Ne.symm hk)] at this

theorem aPl_presenceArtist (p : List String × AMap) (a : SpArtist) (k : String) :
    aPl (presenceArtist p a).2 k = aPl p.2 k := by
  unfold presenceArtist
  cases hid : strVal a.id with
  | none => rfl
  | some i =>
    cases hn : strVal a.name with
    | none => rfl
    | some n =>
      simp only []
      split
      · rfl
      · next hl =>
        rw [aPl_mapSet]
        split
        · next hk =>
          subst hk
          simp only [Option.not_isSome_iff_eq_none] at hl
          simp [aPl, hl]
        · rfl

theorem aSong_presenceArtist (p : List String × AMap) (a : SpArtist) (k : String) :
    aSong (presenceArtist p a).2 k = aSong p.2 k := by
  unfold presenceArtist
  cases hid : strVal a.id with
  | none => rfl
  | some i =>
    cases hn : strVal a.name with
    | none => rfl
    | some n =>
      simp only []
      split
      · rfl
      · next hl =>
        rw [aSong_mapSet]
        split
        · next hk =>
          subst hk
          simp only [Option.not_isSome_iff_eq_none] at hl
          simp [aSong, hl]
        · rfl

theorem presenceArtists_cons (p : List String × AMap) (a : SpArtist) (as : List SpArtist) :
    presenceArtists p (a :: as) = presenceArtists (presenceArtist p a) as := rfl

theorem aPl_presenceArtists (p : List String × AMap) (as : List SpArtist) (k : String) :
    aPl (presenceArtists p as).2 k = aPl p.2 k := by
  induction as generalizing p with
  | nil => rfl
  | cons a as ih => rw [presenceArtists_cons, ih, aPl_presenceArtist]

theorem aSong_presenceArtists (p : List String × AMap) (as : List SpArtist) (k : String) :
    aSong (presenceArtists p as).2 k = aSong p.2 k := by
  induction as generalizing p with
  | nil => rfl
  | cons a as ih => rw [presenceArtists_cons, ih, aSong_presenceArtist]

/-! ## Lemmas: the item loop leaves every `playlistCount` unchanged -/

theorem artistMap_trackCreateStep (scan : ScanState) (track : SpTrack) (trackId : String) :
    (trackCreateStep scan track trackId).artistMap = scan.artistMap := by
  unfold trackCreateStep
  split <;> rfl

theorem aPl_trackCreateStep (scan : ScanState) (track : SpTrack) (trackId : String)
    (k : String) :
    aPl (trackCreateStep scan track trackId).artistMap k = aPl scan.artistMap k := by
  unfold trackCreateStep
  split <;> rfl

theorem aSong_trackCreateStep (scan : ScanState) (track : SpTrack) (trackId : String)
    (k : String) :
    aSong (trackCreateStep scan track trackId).artistMap k = aSong scan.artistMap k := by
  unfold trackCreateStep
  split <;> rfl

theorem unique_trackCreateStep (scan : ScanState) (track : SpTrack) (trackId : String) :
    (trackCreateStep scan track trackId).uniqueTrackIds = scan.uniqueTrackIds := by
  unfold trackCreateStep
  split <;> rfl

theorem tPl_trackCreateStep (scan : ScanState) (track : SpTrack) (trackId : String)
    (k : String) :
    tPl (trackCreateStep scan track trackId).trackPlaylistMap k
      = tPl scan.trackPlaylistMap k := by
  unfold trackCreateStep
  split
  · rfl
  · next h =>
    simp only [tPl_mapSet]
    split
    · next hk =>
      subst hk
      simp [tPl, Option.not_isSome_iff_eq_none.mp h]
    · rfl

theorem aPl_uniqueStep (scan : ScanState) (track : SpTrack) (trackId : String) (k : String) :
    aPl (uniqueStep scan track trackId).artistMap k = aPl scan.artistMap k := by
  unfold uniqueStep
  split
  · rfl
  · simp [aPl_creditArtists]

theorem tPl_uniqueStep (scan : ScanState) (track : SpTrack) (trackId : String) (k : String) :
    tPl (uniqueStep scan track trackId).trackPlaylistMap k = tPl scan.trackPlaylistMap k := by
  unfold uniqueStep
  split <;> rfl

theorem aPl_presenceArtists_pair (s : List String) (m : AMap) (as : List SpArtist)
    (k : String) : aPl (presenceArtists (s, m) as).2 k = aPl m k :=
  aPl_presenceArtists (s, m) as k

theorem aSong_presenceArtists_pair (s : List String) (m : AMap) (as : List SpArtist)
    (k : String) : aSong (presenceArtists (s, m) as).2 k = aSong m k :=
  aSong_presenceArtists (s, m) as k

theorem aPl_processTrack (ls : LoopState) (track : SpTrack) (trackId : String)
    (k : String) :
    aPl (processTrack ls track trackId).scan.artistMap k = aPl ls.scan.artistMap k := by
  show aPl (presenceArtists
      (ls.aIn, (uniqueStep (trackCreateStep ls.scan track trackId) track trackId).artistMap)
      track.artists).2 k = aPl ls.scan.artistMap k
  rw [aPl_presenceArtists_pair, aPl_uniqueStep, aPl_trackCreateStep]

theorem tPl_processTrack (ls : LoopState) (track : SpTrack) (trackId : String)
    (k : String) :
    tPl (processTrack ls track trackId).scan.trackPlaylistMap k
      = tPl ls.scan.trackPlaylistMap k := by
  show tPl (uniqueStep (trackCreateStep ls.scan track trackId) track trackId).trackPlaylistMap k
      = tPl ls.scan.trackPlaylistMap k
  rw [tPl_uniqueStep, tPl_trackCreateStep]

theorem aPl_processItem (ls : LoopState) (it : SpItem) (k : String) :
    aPl (processItem ls it).scan.artistMap k = aPl ls.scan.artistMap k := by
  cases hit : it.track with
  | none => simp [processItem, hit]
  | some track =>
    by_cases hty : track.type ≠ "track"
    · simp [processItem, hit, hty]
    · cases hid : strVal track.id with
      | none => simp [processItem, hit, hid, if_neg hty]
      | some trackId =>
        simp only [processItem, hit, hid, if_neg hty]
        exact aPl_processTrack ls track trackId k

theorem tPl_processItem (ls : LoopState) (it : SpItem) (k : String) :
    tPl (processItem ls it).scan.trackPlaylistMap k = tPl ls.scan.trackPlaylistMap k := by
  cases hit : it.track with
  | none => simp [processItem, hit]
  | some track =>
    by_cases hty : track.type ≠ "track"
    · simp [processItem, hit, hty]
    · cases hid : strVal track.id with
      | none => simp [processItem, hit, hid, if_neg hty]
      | some trackId =>
        simp only [processItem, hit, hid, if_neg hty]
        exact tPl_processTrack ls track trackId k

theorem aPl_foldItems (items : List SpItem) (ls : LoopState) (k : String) :
    aPl (items.foldl processItem ls).scan.artistMap k = aPl ls.scan.artistMap k := by
  induction items generalizing ls with
  | nil => rfl
  | cons it items ih => rw [List.foldl_cons, ih, aPl_processItem]

theorem tPl_foldItems (items : List SpItem) (ls : LoopState) (k : String) :
    tPl (items.foldl processItem ls).scan.trackPlaylistMap k
      = tPl ls.scan.trackPlaylistMap k := by
  induction items generalizing ls with
  | nil => rfl
  | cons it items ih => rw [List.foldl_cons, ih, tPl_processItem]

/-! ## Lemmas: end-of-playlist bumps add at most one per key -/

theorem aPl_bumpA_ne (m : AMap) (i k : String) (h : k ≠ i) :
    aPl (bumpA m i) k = aPl m k := by
  unfold bumpA
  cases hl : m.lookup i with
  | none => rfl
  | some r => simp [aPl_mapSet, h]

theorem aPl_bumpA_le (m : AMap) (i : String) : aPl (bumpA m i) i ≤ aPl m i + 1 := by
  unfold bumpA
  cases hl : m.lookup i with
  | none => exact Nat.le_succ _
  | some r =>
    rw [aPl_mapSet, if_pos rfl]
    have : aPl m i = r.playlistCount := by simp [aPl, hl]
    rw [this]

theorem aPl_bumpArtists_not_mem (m : AMap) (ids : List String) (k : String)
    (h : k ∉ ids) : aPl (bumpArtists m ids) k = aPl m k := by
  induction ids generalizing m with
  | nil => rfl
  | cons i ids ih =>
    simp only [List.mem_cons, not_or] at h
    rw [show bumpArtists m (i :: ids) = bumpArtists (bumpA m i) ids from rfl,
        ih _ h.2, aPl_bumpA_ne _ _ _ h.1]

theorem aPl_bumpArtists_le (m : AMap) (ids : List String) (k : String)
    (h : ids.Nodup) : aPl (bumpArtists m ids) k ≤ aPl m k + 1 := by
  induction ids generalizing m with
  | nil => exact Nat.le_succ _
  | cons i ids ih =>
    rw [List.nodup_cons] at h
    rw [show bumpArtists m (i :: ids) = bumpArtists (bumpA m i) ids from rfl]
    by_cases hk : k = i
    · subst hk
      rw [aPl_bumpArtists_not_mem _ _ _ h.1]
      exact aPl_bumpA_le m k
    · have := ih (bumpA m i) h.2
      rwa [aPl_bumpA_ne _ _ _ hk] at this

theorem tPl_bumpT_ne (m : TMap) (i k : String) (h : k ≠ i) :
    tPl (bumpT m i) k = tPl m k := by
  unfold bumpT
  cases hl : m.lookup i with
  | none => rfl
  | some r => simp [tPl_mapSet, h]

theorem tPl_bumpT_le (m : TMap) (i : String) : tPl (bumpT m i) i ≤ tPl m i + 1 := by
  unfold bumpT
  cases hl : m.lookup i with
  | none => exact Nat.le_succ _
  | some r =>
    rw [tPl_mapSet, if_pos rfl]
    have : tPl m i = r.playlistCount := by simp [tPl, hl]
    rw [this]

theorem tPl_bumpTracks_not_mem (m : TMap) (ids : List String) (k : String)
    (h : k ∉ ids) : tPl (bumpTracks m ids) k = tPl m k := by
  induction ids generalizing m with
  | nil => rfl
  | cons i ids ih =>
    simp only [List.mem_cons, not_or] at h
    rw [show bumpTracks m (i :: ids) = bumpTracks (bumpT m i) ids from rfl,
        ih _ h.2, tPl_bumpT_ne _ _ _ h.1]

theorem tPl_bumpTracks_le (m : TMap) (ids : List String) (k : String)
    (h : ids.Nodup) : tPl (bumpTracks m ids) k ≤ tPl m k + 1 := by
  induction ids generalizing m with
  | nil => exact Nat.le_succ _
  | cons i ids ih =>
    rw [List.nodup_cons] at h
    rw [show bumpTracks m (i :: ids) = bumpTracks (bumpT m i) ids from rfl]
    by_cases hk : k = i
    · subst hk
      rw [tPl_bumpTracks_not_mem _ _ _ h.1]
      exact tPl_bumpT_le m k
    · have := ih (bumpT m i) h.2
      rwa [tPl_bumpT_ne _ _ _ hk] at this

/-! ## Lemmas: the playlist-local sets stay duplicate-free -/

theorem nodup_addToSet (s : List String) (x : String) (h : s.Nodup) :
    (addToSet s x).Nodup := by
  unfold addToSet
  split
  · exact h
  · next hx =>
    rw [List.nodup_append]
    exact ⟨h, List.nodup_singleton x, by intro y hy hz; simp at hz; subst hz; exact hx hy⟩

theorem nodup_presenceArtists (p : List String × AMap) (as : List SpArtist)
    (h : p.1.Nodup) : (presenceArtists p as).1.Nodup := by
  induction as generalizing p with
  | nil => exact h
  | cons a as ih =>
    rw [presenceArtists_cons]
    apply ih
    unfold presenceArtist
    cases strVal a.id with
    | none => exact h
    | some i =>
      cases strVal a.name with
      | none => exact h
      | some n => exact nodup_addToSet _ _ h

theorem nodup_aIn_processItem (ls : LoopState) (it : SpItem) (h : ls.aIn.Nodup) :
    (processItem ls it).aIn.Nodup := by
  cases hit : it.track with
  | none => simpa [processItem, hit] using h
  | some track =>
    by_cases hty : track.type ≠ "track"
    · simpa [processItem, hit, hty] using h
    · cases hid : strVal track.id with
      | none => simpa [processItem, hit, hid, if_neg hty] using h
      | some trackId =>
        simp only [processItem, hit, hid, if_neg hty]
        exact nodup_presenceArtists _ _ h

theorem nodup_tIn_processItem (ls : LoopState) (it : SpItem) (h : ls.tIn.Nodup) :
    (processItem ls it).tIn.Nodup := by
  cases hit : it.track with
  | none => simpa [processItem, hit] using h
  | some track =>
    by_cases hty : track.type ≠ "track"
    · simpa [processItem, hit, hty] using h
    · cases hid : strVal track.id with
      | none => simpa [processItem, hit, hid, if_neg hty] using h
      | some trackId =>
        simp only [processItem, hit, hid, if_neg hty]
        exact nodup_addToSet _ _ h

theorem nodup_aIn_foldItems (items : List SpItem) (ls : LoopState) (h : ls.aIn.Nodup) :
    (items.foldl processItem ls).aIn.Nodup := by
  induction items generalizing ls with
  | nil => exact h
  | cons it items ih => exact ih _ (nodup_aIn_processItem _ _ h)

theorem nodup_tIn_foldItems (items : List SpItem) (ls : LoopState) (h : ls.tIn.Nodup) :
    (items.foldl processItem ls).tIn.Nodup := by
  induction items generalizing ls with
  | nil => exact h
  | cons it items ih => exact ih _ (nodup_tIn_processItem _ _ h)

/-! ## Lemmas: per-playlist increments are at most one (claim C3 machinery) -/

theorem aPl_processPlaylist_le (st : ScanState) (pl : Playlist) (k : String) :
    aPl (processPlaylist st pl).artistMap k ≤ aPl st.artistMap k + 1 := by
  unfold processPlaylist
  cases strVal pl.id with
  | none => exact Nat.le_succ _
  | some pid =>
    simp only []
    have hnd : (pl.items.foldl processItem { scan := st, aIn := [], tIn := [] }).aIn.Nodup :=
      nodup_aIn_foldItems _ _ List.nodup_nil
    calc aPl (bumpArtists (pl.items.foldl processItem ⟨st, [], []⟩).scan.artistMap
              (pl.items.foldl processItem ⟨st, [], []⟩).aIn) k
        ≤ aPl (pl.items.foldl processItem ⟨st, [], []⟩).scan.artistMap k + 1 :=
          aPl_bumpArtists_le _ _ _ hnd
      _ = aPl st.artistMap k + 1 := by rw [aPl_foldItems]

theorem tPl_processPlaylist_le (st : ScanState) (pl : Playlist) (k : String) :
    tPl (processPlaylist st pl).trackPlaylistMap k ≤ tPl st.trackPlaylistMap k + 1 := by
  unfold processPlaylist
  cases strVal pl.id with
  | none => exact Nat.le_succ _
  | some pid =>
    simp only []
    have hnd : (pl.items.foldl processItem { scan := st, aIn := [], tIn := [] }).tIn.Nodup :=
      nodup_tIn_foldItems _ _ List.nodup_nil
    calc tPl (bumpTracks (pl.items.foldl processItem ⟨st, [], []⟩).scan.trackPlaylistMap
              (pl.items.foldl processItem ⟨st, [], []⟩).tIn) k
        ≤ tPl (pl.items.foldl processItem ⟨st, [], []⟩).scan.trackPlaylistMap k + 1 :=
          tPl_bumpTracks_le _ _ _ hnd
      _ = tPl st.trackPlaylistMap k + 1 := by rw [tPl_foldItems]

/-! ## Lemmas: whole-scan playlistCount bounds -/

theorem aPl_foldPlaylists_le (pls : List Playlist) (st : ScanState) (k : String) :
    aPl ((pls.foldl processPlaylist st).artistMap) k ≤ aPl st.artistMap k + pls.length := by
  induction pls generalizing st with
  | nil => simp
  | cons pl pls ih =>
    calc aPl (((pl :: pls).foldl processPlaylist st).artistMap) k
        = aPl ((pls.foldl processPlaylist (processPlaylist st pl)).artistMap) k := rfl
      _ ≤ aPl (processPlaylist st pl).artistMap k + pls.length := ih _
      _ ≤ (aPl st.artistMap k + 1) + pls.length :=
          Nat.add_le_add_right (aPl_processPlaylist_le st pl k) _
      _ = aPl st.artistMap k + (pl :: pls).length := by simp; omega

theorem aPl_runScan_le (pls : List Playlist) (k : String) :
    aPl (runScan pls).artistMap k ≤ pls.length := by
  have := aPl_foldPlaylists_le pls initState k
  simpa [runScan, initState, aPl] using this

/-! ## Lemmas: the songCount invariant (needs duplicate-free credited ids) -/

theorem aSong_bumpA (m : AMap) (i k : String) : aSong (bumpA m i) k = aSong m k := by
  unfold bumpA
  cases hl : m.lookup i with
  | none => rfl
  | some r =>
    rw [aSong_mapSet]
    split
    · next hk => subst hk; simp [aSong, hl]
    · rfl

theorem aSong_bumpArtists (m : AMap) (ids : List String) (k : String) :
    aSong (bumpArtists m ids) k = aSong m k := by
  induction ids generalizing m with
  | nil => rfl
  | cons i ids ih =>
    rw [show bumpArtists m (i :: ids) = bumpArtists (bumpA m i) ids from rfl, ih, aSong_bumpA]

/-- The song-count invariant of a scan state: no artist is credited more
distinct songs than there are globally seen unique tracks. -/
def SongInv (st : ScanState) : Prop :=
  ∀ k, aSong st.artistMap k ≤ st.uniqueTrackIds.length

theorem songInv_processTrack (ls : LoopState) (track : SpTrack) (trackId : String)
    (hWF : (creditedIds track.artists).Nodup) (h : SongInv ls.scan) :
    SongInv (processTrack ls track trackId).scan := by
  intro k
  show aSong (presenceArtists
      (ls.aIn, (uniqueStep (trackCreateStep ls.scan track trackId) track trackId).artistMap)
      track.artists).2 k
    ≤ (uniqueStep (trackCreateStep ls.scan track trackId) track trackId).uniqueTrackIds.length
  rw [aSong_presenceArtists_pair]
  unfold uniqueStep
  rw [unique_trackCreateStep]
  split
  · rw [aSong_trackCreateStep, unique_trackCreateStep]
    exact h k
  · simp only [unique_trackCreateStep, List.length_append, List.length_singleton]
    calc aSong (creditArtists (trackCreateStep ls.scan track trackId).artistMap track.artists) k
        ≤ aSong (trackCreateStep ls.scan track trackId).artistMap k + 1 :=
          aSong_creditArtists_le _ _ _ hWF
      _ = aSong ls.scan.artistMap k + 1 := by rw [aSong_trackCreateStep]
      _ ≤ ls.scan.uniqueTrackIds.length + 1 := Nat.add_le_add_right (h k) 1

theorem songInv_processItem (ls : LoopState) (it : SpItem)
    (hWF : ∀ t ∈ it.track.toList, (creditedIds t.artists).Nodup) (h : SongInv ls.scan) :
    SongInv (processItem ls it).scan := by
  cases hit : it.track with
  | none => simpa [processItem, hit] using h
  | some track =>
    have hWFt : (creditedIds track.artists).Nodup := hWF track (by simp [hit])
    by_cases hty : track.type ≠ "track"
    · simpa [processItem, hit, hty] using h
    · cases hid : strVal track.id with
      | none => simpa [processItem, hit, hid, if_neg hty] using h
      | some trackId =>
        simp only [processItem, hit, hid, if_neg hty]
        exact songInv_processTrack ls track trackId hWFt h

theorem songInv_foldItems (items : List SpItem) (ls : LoopState)
    (hWF : ∀ it ∈ items, ∀ t ∈ it.track.toList, (creditedIds t.artists).Nodup)
    (h : SongInv ls.scan) : SongInv (items.foldl processItem ls).scan := by
  induction items generalizing ls with
  | nil => exact h
  | cons it items ih =>
    exact ih _ (fun x hx => hWF x (List.mem_cons_of_mem _ hx))
      (songInv_processItem ls it (hWF it (List.mem_cons_self _ _)) h)

theorem songInv_processPlaylist (st : ScanState) (pl : Playlist)
    (hWF : ∀ it ∈ pl.items, ∀ t ∈ it.track.toList, (creditedIds t.artists).Nodup)
    (h : SongInv st) : SongInv (processPlaylist st pl) := by
  unfold processPlaylist
  cases strVal pl.id with
  | none => exact h
  | some pid =>
    intro k
    simp only []
    rw [aSong_bumpArtists]
    exact songInv_foldItems pl.items ⟨st, [], []⟩ hWF h k

theorem songInv_runScan (pls : List Playlist) (hWF : WellFormed pls) :
    SongInv (runScan pls) := by
  suffices hgen : ∀ st, SongInv st →
      SongInv (pls.foldl processPlaylist st) by
    exact hgen initState (fun k => by simp [initState, aSong])
  induction pls with
  | nil => exact fun st h => h
  | cons pl pls ih =>
    intro st h
    exact ih (fun q hq => hWF q (List.mem_cons_of_mem _ hq)) _
      (songInv_processPlaylist st pl (hWF pl (List.mem_cons_self _ _)) h)

/-! ## Lemmas: artistMap keys stay duplicate-free -/

theorem keysNodup_creditArtist (m : AMap) (a : SpArtist)
    (h : (m.map Prod.fst).Nodup) : ((creditArtist m a).map Prod.fst).Nodup := by
  unfold creditArtist
  cases strVal a.id with
  | none => exact h
  | some i =>
    cases strVal a.name with
    | none => exact h
    | some n =>
      cases hl : m.lookup i with
      | some prev =>
        simp only [hl]
        exact keysNodup_mapSet _ _ _ h
      | none =>
        simp only [hl]
        exact keysNodup_mapSet _ _ _ h

theorem keysNodup_creditArtists (m : AMap) (as : List SpArtist)
    (h : (m.map Prod.fst).Nodup) : ((creditArtists m as).map Prod.fst).Nodup := by
  induction as generalizing m with
  | nil => exact h
  | cons a as ih => exact ih _ (keysNodup_creditArtist _ _ h)

theorem keysNodup_presenceArtists (p : List String × AMap) (as : List SpArtist)
    (h : (p.2.map Prod.fst).Nodup) : ((presenceArtists p as).2.map Prod.fst).Nodup := by
  induction as generalizing p with
  | nil => exact h
  | cons a as ih =>
    rw [presenceArtists_cons]
    apply ih
    unfold presenceArtist
    cases strVal a.id with
    | none => exact h
    | some i =>
      cases strVal a.name with
      | none => exact h
      | some n =>
        simp only []
        split
        · exact h
        · exact keysNodup_mapSet _ _ _ h

theorem keysNodup_bumpArtists (m : AMap) (ids : List String)
    (h : (m.map Prod.fst).Nodup) : ((bumpArtists m ids).map Prod.fst).Nodup := by
  induction ids generalizing m with
  | nil => exact h
  | cons i ids ih =>
    rw [show bumpArtists m (i :: ids) = bumpArtists (bumpA m i) ids from rfl]
    apply ih
    unfold bumpA
    cases m.lookup i with
    | some r => exact keysNodup_mapSet _ _ _ h
    | none => exact h

theorem keysNodup_processItem (ls : LoopState) (it : SpItem)
    (h : (ls.scan.artistMap.map Prod.fst).Nodup) :
    ((processItem ls it).scan.artistMap.map Prod.fst).Nodup := by
  cases hit : it.track with
  | none => simpa [processItem, hit] using h
  | some track =>
    by_cases hty : track.type ≠ "track"
    · simpa [processItem, hit, hty] using h
    · cases hid : strVal track.id with
      | none => simpa [processItem, hit, hid, if_neg hty] using h
      | some trackId =>
        simp only [processItem, hit, hid, if_neg hty]
        show ((presenceArtists
            (ls.aIn, (uniqueStep (trackCreateStep ls.scan track trackId) track trackId).artistMap)
            track.artists).2.map Prod.fst).Nodup
        apply keysNodup_presenceArtists
        show (((uniqueStep (trackCreateStep ls.scan track trackId) track trackId).artistMap).map
            Prod.fst).Nodup
        unfold uniqueStep
        split
        · rw [artistMap_trackCreateStep]
          exact h
        · show ((creditArtists (trackCreateStep ls.scan track trackId).artistMap
              track.artists).map Prod.fst).Nodup
          apply keysNodup_creditArtists
          rw [artistMap_trackCreateStep]
          exact h

theorem keysNodup_foldItems (items : List SpItem) (ls : LoopState)
    (h : (ls.scan.artistMap.map Prod.fst).Nodup) :
    ((items.foldl processItem ls).scan.artistMap.map Prod.fst).Nodup := by
  induction items generalizing ls with
  | nil => exact h
  | cons it items ih => exact ih _ (keysNodup_processItem _ _ h)

theorem keysNodup_processPlaylist (st : ScanState) (pl : Playlist)
    (h : (st.artistMap.map Prod.fst).Nodup) :
    ((processPlaylist st pl).artistMap.map Prod.fst).Nodup := by
  unfold processPlaylist
  cases strVal pl.id with
  | none => exact h
  | some pid =>
    simp only []
    exact keysNodup_bumpArtists _ _ (keysNodup_foldItems pl.items ⟨st, [], []⟩ h)

theorem keysNodup_runScan (pls : List Playlist) :
    ((runScan pls).artistMap.map Prod.fst).Nodup := by
  suffices hgen : ∀ st, (st.artistMap.map Prod.fst).Nodup →
      ((pls.foldl processPlaylist st).artistMap.map Prod.fst).Nodup by
    exact hgen initState (by simp [initState])
  induction pls with
  | nil => exact fun st h => h
  | cons pl pls ih => exact fun st h => ih _ (keysNodup_processPlaylist st pl h)

/-! ## Lemmas: evolution of `uniqueTrackIds` (claim C4 machinery) -/

theorem unique_processTrack (ls : LoopState) (track : SpTrack) (trackId : String) :
    (processTrack ls track trackId).scan.uniqueTrackIds
      = if trackId ∈ ls.scan.uniqueTrackIds then ls.scan.uniqueTrackIds
        else ls.scan.uniqueTrackIds ++ [trackId] := by
  show (uniqueStep (trackCreateStep ls.scan track trackId) track trackId).uniqueTrackIds = _
  unfold uniqueStep
  split
  · next hmem =>
    rw [unique_trackCreateStep] at hmem
    rw [unique_trackCreateStep, if_pos hmem]
  · next hmem =>
    rw [unique_trackCreateStep] at hmem
    show (trackCreateStep ls.scan track trackId).uniqueTrackIds ++ [trackId] = _
    rw [unique_trackCreateStep, if_neg hmem]

theorem processItem_of_playable (ls : LoopState) (it : SpItem) (track : SpTrack)
    (trackId : String) (hit : it.track = some track) (hty : ¬track.type ≠ "track")
    (hid : strVal track.id = some trackId) :
    processItem ls it = processTrack ls track trackId := by
  simp [processItem, hit, hid, if_neg hty]

theorem itemId_of_playable (it : SpItem) (track : SpTrack) (trackId : String)
    (hit : it.track = some track) (hty : ¬track.type ≠ "track")
    (hid : strVal track.id = some trackId) : itemId it = some trackId := by
  simp [itemId, hit, not_ne_iff.mp hty, hid]

theorem unique_processItem_none (ls : LoopState) (it : SpItem) (hii : itemId it = none) :
    (processItem ls it).scan.uniqueTrackIds = ls.scan.uniqueTrackIds := by
  cases hit : it.track with
  | none => simp [processItem, hit]
  | some track =>
    by_cases hty : track.type ≠ "track"
    · simp [processItem, hit, hty]
    · cases hid : strVal track.id with
      | none => simp [processItem, hit, hid, if_neg hty]
      | some trackId =>
        rw [itemId_of_playable it track trackId hit hty hid] at hii
        exact absurd hii (by simp)

theorem unique_processItem_some (ls : LoopState) (it : SpItem) (trackId : String)
    (hii : itemId it = some trackId) :
    (processItem ls it).scan.uniqueTrackIds
      = if trackId ∈ ls.scan.uniqueTrackIds then ls.scan.uniqueTrackIds
        else ls.scan.uniqueTrackIds ++ [trackId] := by
  cases hit : it.track with
  | none => rw [show itemId it = none by simp [itemId, hit]] at hii; exact absurd hii (by simp)
  | some track =>
    by_cases hty : track.type ≠ "track"
    · rw [show itemId it = none by simp [itemId, hit, hty]] at hii
      exact absurd hii (by simp)
    · cases hid : strVal track.id with
      | none =>
        rw [show itemId it = none by simp [itemId, hit, not_ne_iff.mp hty, hid]] at hii
        exact absurd hii (by simp)
      | some tid =>
        have h1 := itemId_of_playable it track tid hit hty hid
        rw [h1] at hii
        cases hii
        rw [processItem_of_playable ls it track trackId hit hty hid, unique_processTrack]

theorem mem_unique_processItem (ls : LoopState) (it : SpItem) (x : String) :
    x ∈ (processItem ls it).scan.uniqueTrackIds
      ↔ x ∈ ls.scan.uniqueTrackIds ∨ itemId it = some x := by
  cases hii : itemId it with
  | none => simp [unique_processItem_none ls it hii]
  | some trackId =>
    rw [unique_processItem_some ls it trackId hii]
    simp only [Option.some.injEq]
    split
    · next hmem =>
      constructor
      · exact Or.inl
      · rintro (h | rfl)
        · exact h
        · exact hmem
    · simp [or_comm, eq_comm]

theorem nodup_unique_processItem (ls : LoopState) (it : SpItem)
    (h : ls.scan.uniqueTrackIds.Nodup) : (processItem ls it).scan.uniqueTrackIds.Nodup := by
  cases hii : itemId it with
  | none => rw [unique_processItem_none ls it hii]; exact h
  | some trackId =>
    rw [unique_processItem_some ls it trackId hii]
    split
    · exact h
    · next hmem =>
      rw [List.nodup_append]
      exact ⟨h, List.nodup_singleton _,
        by intro y hy hz; simp at hz; subst hz; exact hmem hy⟩

theorem mem_unique_foldItems (items : List SpItem) (ls : LoopState) (x : String) :
    x ∈ (items.foldl processItem ls).scan.uniqueTrackIds
      ↔ x ∈ ls.scan.uniqueTrackIds ∨ x ∈ playableIds items := by
  induction items generalizing ls with
  | nil => simp [playableIds]
  | cons it items ih =>
    rw [List.foldl_cons, ih, mem_unique_processItem]
    simp only [playableIds, List.filterMap_cons]
    cases hii : itemId it with
    | none => simp
    | some trackId =>
      simp only [List.mem_cons, Option.some.injEq]
      constructor
      · rintro ((h | rfl) | h)
        · exact Or.inl h
        · exact Or.inr (Or.inl rfl)
        · exact Or.inr (Or.inr h)
      · rintro (h | rfl | h)
        · exact Or.inl (Or.inl h)
        · exact Or.inl (Or.inr rfl)
        · exact Or.inr h

theorem nodup_unique_foldItems (items : List SpItem) (ls : LoopState)
    (h : ls.scan.uniqueTrackIds.Nodup) :
    (items.foldl processItem ls).scan.uniqueTrackIds.Nodup := by
  induction items generalizing ls with
  | nil => exact h
  | cons it items ih => exact ih _ (nodup_unique_processItem _ _ h)

theorem unique_processPlaylist (st : ScanState) (pl : Playlist) :
    (processPlaylist st pl).uniqueTrackIds
      = match strVal pl.id with
        | none => st.uniqueTrackIds
        | some _ => (pl.items.foldl processItem ⟨st, [], []⟩).scan.uniqueTrackIds := by
  unfold processPlaylist
  cases strVal pl.id with
  | none => rfl
  | some pid => rfl

theorem mem_unique_processPlaylist (st : ScanState) (pl : Playlist) (x : String) :
    x ∈ (processPlaylist st pl).uniqueTrackIds
      ↔ x ∈ st.uniqueTrackIds ∨ ((strVal pl.id).isSome ∧ x ∈ playableIds pl.items) := by
  rw [unique_processPlaylist]
  cases hid : strVal pl.id with
  | none => simp
  | some pid => simp [mem_unique_foldItems]

theorem nodup_unique_processPlaylist (st : ScanState) (pl : Playlist)
    (h : st.uniqueTrackIds.Nodup) : (processPlaylist st pl).uniqueTrackIds.Nodup := by
  rw [unique_processPlaylist]
  cases strVal pl.id with
  | none => exact h
  | some pid => exact nodup_unique_foldItems _ _ h

theorem mem_unique_runScan (pls : List Playlist) (x : String) :
    x ∈ (runScan pls).uniqueTrackIds ↔ x ∈ scannedIds pls := by
  suffices hgen : ∀ st, (x ∈ (pls.foldl processPlaylist st).uniqueTrackIds
      ↔ x ∈ st.uniqueTrackIds ∨ x ∈ scannedIds pls) by
    simpa [runScan, initState] using hgen initState
  induction pls with
  | nil => simp [scannedIds]
  | cons pl pls ih =>
    intro st
    rw [List.foldl_cons, ih, mem_unique_processPlaylist]
    cases hid : strVal pl.id with
    | none => simp [scannedIds, List.filter_cons, hid]
    | some pid =>
      simp only [scannedIds, List.filter_cons, hid, Option.isSome_some, decide_True,
        if_true, List.flatMap_cons, List.mem_append, true_and]
      tauto

theorem nodup_unique_runScan (pls : List Playlist) : (runScan pls).uniqueTrackIds.Nodup := by
  suffices hgen : ∀ st, st.uniqueTrackIds.Nodup →
      (pls.foldl processPlaylist st).uniqueTrackIds.Nodup by
    exact hgen initState List.nodup_nil
  induction pls with
  | nil => exact fun st h => h
  | cons pl pls ih => exact fun st h => ih _ (nodup_unique_processPlaylist st pl h)

theorem length_unique_runScan (pls : List Playlist) :
    (runScan pls).uniqueTrackIds.length = (scannedIds pls).dedup.length := by
  have h1 : (runScan pls).uniqueTrackIds.Nodup := nodup_unique_runScan pls
  have h2 : (scannedIds pls).dedup.Nodup := List.nodup_dedup _
  have h3 : ∀ x, x ∈ (runScan pls).uniqueTrackIds ↔ x ∈ (scannedIds pls).dedup := by
    intro x
    rw [List.mem_dedup]
    exact mem_unique_runScan pls x
  exact ((List.perm_ext_iff_of_nodup h1 h2).mpr h3).length_eq

/-! ## Lemmas: enrichment changes only image fields -/

theorem enrich_artistMap_counts (st : ScanState) (f : List String → List ArtistObj) :
    ∀ p ∈ (enrich st f).artistMap, ∃ r : ArtistRec, (p.1, r) ∈ st.artistMap ∧
      p.2.name = r.name ∧ p.2.songCount = r.songCount ∧
      p.2.playlistCount = r.playlistCount := by
  intro p hp
  unfold enrich at hp
  split at hp
  all_goals rename_i hlen
  · simp only [List.mem_map] at hp
    obtain ⟨q, hq, rfl⟩ := hp
    exact ⟨q.2, by simpa using hq, rfl, rfl, rfl⟩
  · exact ⟨p.2, hp, rfl, rfl, rfl⟩

theorem enrich_unique (st : ScanState) (f : List String → List ArtistObj) :
    (enrich st f).uniqueTrackIds = st.uniqueTrackIds := by
  unfold enrich
  split <;> rfl

/-! ## Lemmas: the stable comparator sort -/

theorem insertCmp_perm {α : Type} (cmp : α → α → Ordering) (x : α) (l : List α) :
    (insertCmp cmp x l).Perm (x :: l) := by
  induction l with
  | nil => exact List.Perm.refl _
  | cons y ys ih =>
    unfold insertCmp
    split
    · exact (ih.cons y).trans (List.Perm.swap x y ys)
    · exact List.Perm.refl _

theorem sortByCmp_perm {α : Type} (cmp : α → α → Ordering) (l : List α) :
    (sortByCmp cmp l).Perm l := by
  induction l with
  | nil => exact List.Perm.refl _
  | cons x l ih => exact (insertCmp_perm cmp x (sortByCmp cmp l)).trans (ih.cons x)

theorem pairwise_insertCmp {α : Type} (cmp : α → α → Ordering)
    (hswap : ∀ a b, cmp a b = (cmp b a).swap)
    (htrans : ∀ a b c, cmp a b ≠ .gt → cmp b c ≠ .gt → cmp a c ≠ .gt)
    (x : α) (l : List α) (hl : l.Pairwise (fun a b => cmp a b ≠ .gt)) :
    (insertCmp cmp x l).Pairwise (fun a b => cmp a b ≠ .gt) := by
  induction l with
  | nil => simp [insertCmp]
  | cons y ys ih =>
    rw [List.pairwise_cons] at hl
    unfold insertCmp
    split
    · next hlt =>
      rw [List.pairwise_cons]
      refine ⟨?_, ih hl.2⟩
      intro z hz
      have hz' : z = x ∨ z ∈ ys := by
        simpa using (insertCmp_perm cmp x ys).mem_iff.mp hz
      rcases hz' with rfl | hz'
      · simp [hlt]
      · exact hl.1 z hz'
    · next hnlt =>
      have hxy : cmp x y ≠ .gt := by
        rw [hswap]
        cases h : cmp y x with
        | lt => exact absurd h hnlt
        | eq => simp [Ordering.swap]
        | gt => simp [Ordering.swap]
      rw [List.pairwise_cons]
      refine ⟨?_, List.pairwise_cons.mpr ⟨hl.1, hl.2⟩⟩
      intro z hz
      rcases List.mem_cons.mp hz with rfl | hz'
      · exact hxy
      · exact htrans x y z hxy (hl.1 z hz')

theorem pairwise_sortByCmp {α : Type} (cmp : α → α → Ordering)
    (hswap : ∀ a b, cmp a b = (cmp b a).swap)
    (htrans : ∀ a b c, cmp a b ≠ .gt → cmp b c ≠ .gt → cmp a c ≠ .gt)
    (l : List α) : (sortByCmp cmp l).Pairwise (fun a b => cmp a b ≠ .gt) := by
  induction l with
  | nil => exact List.Pairwise.nil
  | cons x l ih => exact pairwise_insertCmp cmp hswap htrans x _ ih

/-! ## Lemmas: comparator laws -/

theorem cmpv_swap {α : Type} [LinearOrder α] (a b : α) : cmpv a b = (cmpv b a).swap := by
  rcases lt_trichotomy a b with h | h | h
  · simp [cmpv, h, asymm h, ne_of_gt h, Ordering.swap]
  · subst h
    simp [cmpv, Ordering.swap]
  · simp [cmpv, h, asymm h, ne_of_gt h, Ordering.swap]

theorem then_swap (o₁ o₂ : Ordering) : (o₁.then o₂).swap = o₁.swap.then o₂.swap := by
  cases o₁ <;> rfl

theorem then_ne_gt (o₁ o₂ : Ordering) :
    o₁.then o₂ ≠ .gt ↔ o₁ = .lt ∨ (o₁ = .eq ∧ o₂ ≠ .gt) := by
  cases o₁ <;> simp [Ordering.then]

theorem cmpv_eq_lt {α : Type} [LinearOrder α] {a b : α} : cmpv a b = .lt ↔ a < b := by
  unfold cmpv
  split_ifs with h1 h2 <;> simp_all

theorem cmpv_eq_eq {α : Type} [LinearOrder α] {a b : α} : cmpv a b = .eq ↔ a = b := by
  unfold cmpv
  split_ifs with h1 h2 <;> simp_all
  exact ne_of_lt h1

theorem cmpv_ne_gt {α : Type} [LinearOrder α] {a b : α} : cmpv a b ≠ .gt ↔ a ≤ b := by
  unfold cmpv
  split_ifs with h1 h2 <;> simp_all
  · exact le_of_lt h1
  · exact lt_of_le_of_ne h1 (Ne.symm h2)

theorem localeCompare_swap (a b : String) :
    localeCompare a b = (localeCompare b a).swap := by
  unfold localeCompare
  rw [then_swap, ← cmpv_swap, ← cmpv_swap]

theorem localeCompare_ne_gt {a b : String} :
    localeCompare a b ≠ .gt
      ↔ (a.toLower < b.toLower ∨ (a.toLower = b.toLower ∧ b ≤ a)) := by
  unfold localeCompare
  rw [then_ne_gt, cmpv_eq_lt, cmpv_eq_eq, cmpv_ne_gt]

theorem localeCompare_trans (a b c : String) (h₁ : localeCompare a b ≠ .gt)
    (h₂ : localeCompare b c ≠ .gt) : localeCompare a c ≠ .gt := by
  rw [localeCompare_ne_gt] at h₁ h₂ ⊢
  rcases h₁ with h₁ | ⟨h₁e, h₁r⟩
  · rcases h₂ with h₂ | ⟨h₂e, _⟩
    · exact Or.inl (lt_trans h₁ h₂)
    · exact Or.inl (h₂e ▸ h₁)
  · rcases h₂ with h₂ | ⟨h₂e, h₂r⟩
    · exact Or.inl (h₁e ▸ h₂)
    · exact Or.inr ⟨h₁e.trans h₂e, le_trans h₂r h₁r⟩

theorem cmpBySongs_swap (a b : ArtistAgg) : cmpBySongs a b = (cmpBySongs b a).swap := by
  unfold cmpBySongs
  rw [then_swap, ← cmpv_swap, ← localeCompare_swap]

theorem cmpBySongs_ne_gt {a b : ArtistAgg} :
    cmpBySongs a b ≠ .gt
      ↔ (b.songCount < a.songCount ∨
          (b.songCount = a.songCount ∧ localeCompare a.artistName b.artistName ≠ .gt)) := by
  unfold cmpBySongs
  rw [then_ne_gt, cmpv_eq_lt, cmpv_eq_eq]

theorem cmpBySongs_trans (a b c : ArtistAgg) (h₁ : cmpBySongs a b ≠ .gt)
    (h₂ : cmpBySongs b c ≠ .gt) : cmpBySongs a c ≠ .gt := by
  rw [cmpBySongs_ne_gt] at h₁ h₂ ⊢
  rcases h₁ with h₁ | ⟨h₁e, h₁r⟩
  · rcases h₂ with h₂ | ⟨h₂e, _⟩
    · exact Or.inl (lt_trans h₂ h₁)
    · exact Or.inl (h₂e ▸ h₁)
  · rcases h₂ with h₂ | ⟨h₂e, h₂r⟩
    · exact Or.inl (h₁e ▸ h₂)
    · exact Or.inr ⟨h₂e.trans h₁e, localeCompare_trans _ _ _ h₁r h₂r⟩

theorem cmpBySongs_le_specLe {a b : ArtistAgg} (h : cmpBySongs a b ≠ .gt) :
    specLeSongs a b := by
  rw [cmpBySongs_ne_gt] at h
  rcases h with h | ⟨he, hr⟩
  · exact Or.inl h
  · rw [localeCompare_ne_gt] at hr
    rcases hr with hr | ⟨hre, _⟩
    · exact Or.inr ⟨he, le_of_lt hr⟩
    · exact Or.inr ⟨he, le_of_eq hre⟩

/-! ## Lemmas: shapes of the derived views -/

theorem percent_topBySongs (artists : List ArtistAgg) (tU : Nat) :
    ∀ e ∈ topBySongs artists tU, e.percent = pct (e.value : ℚ) (tU : ℚ) := by
  intro e he
  unfold topBySongs at he
  rw [List.mem_map] at he
  obtain ⟨a, -, rfl⟩ := he
  rfl

theorem percent_topByPlaylists (artists : List ArtistAgg) (tP : Nat) :
    ∀ e ∈ topByPlaylists artists tP, e.percent = pct (e.value : ℚ) (tP : ℚ) := by
  intro e he
  unfold topByPlaylists at he
  rw [List.mem_map] at he
  obtain ⟨a, -, rfl⟩ := he
  rfl

theorem value_mem_topBySongs (artists : List ArtistAgg) (tU : Nat) (e : TopArtistEntry)
    (he : e ∈ topBySongs artists tU) : ∃ a ∈ artists, e.value = a.songCount := by
  unfold topBySongs at he
  rw [List.mem_map] at he
  obtain ⟨a, ha, rfl⟩ := he
  exact ⟨a, (sortByCmp_perm cmpBySongs artists).mem_iff.mp (List.take_subset _ _ ha), rfl⟩

theorem length_topBySongs_le (artists : List ArtistAgg) (tU : Nat) :
    (topBySongs artists tU).length ≤ 5 := by
  unfold topBySongs
  rw [List.length_map]
  exact List.length_take_le _ _

theorem pct_le_100 (x d : ℕ) (h : x ≤ d) : pct (x : ℚ) (d : ℚ) ≤ 100 := by
  unfold pct
  split
  · next hd =>
    rw [div_mul_eq_mul_div, div_le_iff₀ hd]
    have hx : (x : ℚ) ≤ (d : ℚ) := Nat.cast_le.mpr h
    calc (x : ℚ) * 100 ≤ (d : ℚ) * 100 := by linarith
      _ = 100 * (d : ℚ) := by ring
  · norm_num

theorem songCount_le_of_mem_scanArtists (pls : List Playlist)
    (f : List String → List ArtistObj) (hWF : WellFormed pls) (a : ArtistAgg)
    (ha : a ∈ scanArtists (enrich (runScan pls) f)) :
    a.songCount ≤ (runScan pls).uniqueTrackIds.length := by
  unfold scanArtists at ha
  rw [List.mem_map] at ha
  obtain ⟨p, hp, rfl⟩ := ha
  obtain ⟨r, hr, -, hsc, -⟩ := enrich_artistMap_counts (runScan pls) f p hp
  have hlk := lookup_of_mem _ _ _ (keysNodup_runScan pls) hr
  have hinv := songInv_runScan pls hWF p.1
  rw [show aSong (runScan pls).artistMap p.1 = r.songCount from by simp [aSong, hlk]] at hinv
  simpa [hsc] using hinv

theorem mem_sortedArtists_iff (st : ScanState) (a : ArtistAgg) :
    a ∈ sortedArtists st ↔ a ∈ scanArtists st :=
  (sortByCmp_perm cmpBySongs (scanArtists st)).mem_iff

/-! ## Claims -/

/-- C3: for every scan state and every playlist processed into it, each
(artist, playlist) pair and each (track, playlist) pair contributes at most
one increment to the corresponding `playlistCount`, no matter how many
duplicate entries of a track the playlist contains. -/
theorem claim_c3_at_most_one_increment (st : ScanState) (pl : Playlist) (k : String) :
    aPl (processPlaylist st pl).artistMap k ≤ aPl st.artistMap k + 1 ∧
    tPl (processPlaylist st pl).trackPlaylistMap k ≤ tPl st.trackPlaylistMap k + 1 :=
  ⟨aPl_processPlaylist_le st pl k, tPl_processPlaylist_le st pl k⟩

/-- C4: for every scan, `totalUniqueTracks` equals the number of distinct
playable track identifiers across the scanned playlists' items, with
non-track items and local/ID-less tracks contributing zero (`itemId` returns
`none` for them); playlists whose own id is falsy are skipped, so their items
are never fetched. -/
theorem claim_c4_total_unique_tracks (pls : List Playlist)
    (f : List String → List ArtistObj) :
    (buildSnapshot pls f).totals.totalUniqueTracks = (scannedIds pls).dedup.length := by
  show (runScan pls).uniqueTrackIds.length = _
  exact length_unique_runScan pls

/-- C5 as stated fails: a raw track whose artist list credits the same artist
id twice increments that artist's `songCount` once per occurrence, so after
scanning `c5Input` the artist has `songCount = 2` while
`totalUniqueTracks = 1`. -/
theorem claim_c5_counterexample :
    ¬ (∀ (pls : List Playlist) (k : String) (r : ArtistRec),
        (runScan pls).artistMap.lookup k = some r →
          r.songCount ≤ (runScan pls).uniqueTrackIds.length ∧
          r.playlistCount ≤ pls.length) := by
  intro h
  have hx := h c5Input "a1" ⟨"Alice", 2, 1, none⟩ (by decide)
  have hlen : (runScan c5Input).uniqueTrackIds.length = 1 := by decide
  rw [hlen] at hx
  exact absurd hx.1 (by decide)

/-- C5 amended: after every scan, every artist accumulator satisfies
`playlistCount ≤ totalPlaylists` unconditionally, and `songCount ≤
totalUniqueTracks` provided no raw track credits the same artist id twice. -/
theorem claim_c5_amended (pls : List Playlist) (f : List String → List ArtistObj)
    (k : String) (r : ArtistRec)
    (hlk : (runScan pls).artistMap.lookup k = some r) :
    r.playlistCount ≤ (buildSnapshot pls f).totals.totalPlaylists ∧
    (WellFormed pls → r.songCount ≤ (buildSnapshot pls f).totals.totalUniqueTracks) := by
  constructor
  · show r.playlistCount ≤ pls.length
    have h := aPl_runScan_le pls k
    rwa [show aPl (runScan pls).artistMap k = r.playlistCount from by simp [aPl, hlk]] at h
  · intro hWF
    show r.songCount ≤ (runScan pls).uniqueTrackIds.length
    have h := songInv_runScan pls hWF k
    rwa [show aSong (runScan pls).artistMap k = r.songCount from by simp [aSong, hlk]] at h

theorem claim_c5_amended_witness :
    (runScan demoInput).artistMap.lookup "a1" = some ⟨"Alice", 1, 1, none⟩ ∧
    WellFormed demoInput ∧
    ((1 : ℕ) ≤ (buildSnapshot demoInput noMeta).totals.totalPlaylists ∧
     (1 : ℕ) ≤ (buildSnapshot demoInput noMeta).totals.totalUniqueTracks) := by
  have h := claim_c5_amended demoInput noMeta "a1" ⟨"Alice", 1, 1, none⟩ (by decide)
  exact ⟨by decide, by decide, h.1, h.2 (by decide)⟩

/-- C6: the top-5-by-songs view is exactly the first five entries of a
permutation of the artist rows that is sorted descending by `songCount` with
ties broken ascending by case-insensitive display name, and every entry's
percent uses `totalUniqueTracks` as its denominator. -/
theorem claim_c6_top_by_songs (pls : List Playlist) (f : List String → List ArtistObj) :
    ∃ l : List ArtistAgg,
      l.Perm (scanArtists (enrich (runScan pls) f)) ∧
      List.Sorted specLeSongs l ∧
      (buildSnapshot pls f).topArtistsBySongs
        = (l.take 5).map (fun a =>
            { artistId := a.artistId, artistName := a.artistName, imageUrl := a.imageUrl,
              value := a.songCount,
              percent := pct (a.songCount : ℚ)
                ((buildSnapshot pls f).totals.totalUniqueTracks : ℚ) }) ∧
      (∀ e ∈ (buildSnapshot pls f).topArtistsBySongs,
        e.percent = pct (e.value : ℚ)
          ((buildSnapshot pls f).totals.totalUniqueTracks : ℚ)) := by
  refine ⟨sortByCmp cmpBySongs (sortedArtists (enrich (runScan pls) f)), ?_, ?_, ?_, ?_⟩
  · exact (sortByCmp_perm _ _).trans (sortByCmp_perm _ _)
  · exact List.Pairwise.imp (fun h => cmpBySongs_le_specLe h)
      (pairwise_sortByCmp cmpBySongs cmpBySongs_swap cmpBySongs_trans _)
  · rfl
  · intro e he
    exact percent_topBySongs (sortedArtists (enrich (runScan pls) f))
      ((runScan pls).uniqueTrackIds.length) e he

/-- C7: the empty playlist set yields totals `{0, 0, 0}`, all derived arrays
empty, exactly one provider call (the playlist listing), and percentages that
default to 0 on a zero denominator instead of dividing by zero. -/
theorem claim_c7_empty_scan (f : List String → List ArtistObj) :
    GET (some "tok") [] f
      = (.ok { totals := ⟨0, 0, 0⟩, topArtistsBySongs := [], topArtistsByPlaylists := [],
               topTracksByPlaylists := [], artistTable := [], artists := [] },
         [FetchCall.playlists]) ∧
    (∀ x : ℚ, pct x 0 = 0) := by
  refine ⟨rfl, fun x => by simp [pct]⟩

/-- C8: a missing (or empty, hence falsy) access token makes the handler
return HTTP 401 with error `not_authenticated` immediately, with no call to
any fetch provider and no retry. -/
theorem claim_c8_auth_missing (pls : List Playlist) (f : List String → List ArtistObj) :
    GET none pls f = (.err 401 "not_authenticated", []) ∧
    GET (some "") pls f = (.err 401 "not_authenticated", []) :=
  ⟨rfl, rfl⟩

/-- C10: a playlist without an identifier still counts toward
`totalPlaylists` (and hence toward every playlist-percentage denominator),
while its items are never fetched and it contributes nothing to any
accumulator: processing it is the identity on the scan state and it emits no
track-fetch call. -/
theorem claim_c10_idless_playlist (pls : List Playlist) (f : List String → List ArtistObj)
    (st : ScanState) (items : List SpItem) :
    (buildSnapshot (⟨none, items⟩ :: pls) f).totals.totalPlaylists = pls.length + 1 ∧
    processPlaylist st ⟨none, items⟩ = st ∧
    processPlaylist st ⟨some "", items⟩ = st ∧
    scanCalls (⟨none, items⟩ :: pls) = scanCalls pls ∧
    (∀ e ∈ (buildSnapshot (⟨none, items⟩ :: pls) f).topArtistsByPlaylists,
        e.percent = pct (e.value : ℚ) ((pls.length + 1 : ℕ) : ℚ)) := by
  refine ⟨?_, rfl, rfl, ?_, ?_⟩
  · show (⟨none, items⟩ :: pls : List Playlist).length = pls.length + 1
    simp
  · simp [scanCalls, List.filterMap_cons, strVal]
  · intro e he
    exact percent_topByPlaylists
      (sortedArtists (enrich (runScan (⟨none, items⟩ :: pls)) f)) (pls.length + 1) e he

/-- C1 as stated fails: the percent fields are stored unrounded, and because a
track credits every contributing artist, the top-5-by-songs percents can sum
to more than 100% — on `c1Input` (tracks t1 by Alice and t2 by Alice and
Bob) they are 100% and 50%, summing to 150%. -/
theorem claim_c1_counterexample :
    ¬ ((((buildSnapshot c1Input noMeta).topArtistsBySongs.map (·.percent)).sum ≤ 100) ∧
       (∀ e ∈ (buildSnapshot c1Input noMeta).topArtistsBySongs,
          e.percent = pct1 ((e.value : ℚ)
            / ((buildSnapshot c1Input noMeta).totals.totalUniqueTracks : ℚ) * 100))) := by
  rintro ⟨h, -⟩
  have he : (buildSnapshot c1Input noMeta).topArtistsBySongs.map (·.percent)
      = [pct ((2 : ℕ) : ℚ) ((2 : ℕ) : ℚ), pct ((1 : ℕ) : ℚ) ((2 : ℕ) : ℚ)] := rfl
  rw [he] at h
  norm_num [pct, List.sum_cons, List.sum_nil] at h

/-- C1 amended: for well-formed inputs every top-5-by-songs entry stores the
exact unrounded percent `pct songCount totalUniqueTracks` (rounding to one
decimal via `pct1` happens only at the PDF export layer), each entry's
percent is at most 100%, and the sum over the view is at most 500% — it can
exceed 100% because a multi-artist track counts once per credited artist. -/
theorem claim_c1_amended (pls : List Playlist) (f : List String → List ArtistObj)
    (hWF : WellFormed pls) :
    (∀ e ∈ (buildSnapshot pls f).topArtistsBySongs,
        e.percent = pct (e.value : ℚ) ((buildSnapshot pls f).totals.totalUniqueTracks : ℚ) ∧
        e.percent ≤ 100) ∧
    (((buildSnapshot pls f).topArtistsBySongs.map (·.percent)).sum ≤ 500) := by
  have hmain : ∀ e ∈ (buildSnapshot pls f).topArtistsBySongs,
      e.percent = pct (e.value : ℚ) ((buildSnapshot pls f).totals.totalUniqueTracks : ℚ) ∧
      e.percent ≤ 100 := by
    intro e he
    have hp := percent_topBySongs (sortedArtists (enrich (runScan pls) f))
      ((runScan pls).uniqueTrackIds.length) e he
    refine ⟨hp, ?_⟩
    obtain ⟨a, ha, hv⟩ := value_mem_topBySongs (sortedArtists (enrich (runScan pls) f))
      ((runScan pls).uniqueTrackIds.length) e he
    have hsc : a.songCount ≤ (runScan pls).uniqueTrackIds.length :=
      songCount_le_of_mem_scanArtists pls f hWF a
        ((mem_sortedArtists_iff (enrich (runScan pls) f) a).mp ha)
    rw [hp, hv]
    exact pct_le_100 _ _ hsc
  refine ⟨hmain, ?_⟩
  have hb : ∀ q ∈ (buildSnapshot pls f).topArtistsBySongs.map (·.percent), q ≤ (100 : ℚ) := by
    intro q hq
    rw [List.mem_map] at hq
    obtain ⟨e, he, rfl⟩ := hq
    exact (hmain e he).2
  have hlen : ((buildSnapshot pls f).topArtistsBySongs.length : ℚ) ≤ 5 := by
    have h5 : (buildSnapshot pls f).topArtistsBySongs.length ≤ 5 :=
      length_topBySongs_le (sortedArtists (enrich (runScan pls) f))
        ((runScan pls).uniqueTrackIds.length)
    exact_mod_cast h5
  calc ((buildSnapshot pls f).topArtistsBySongs.map (·.percent)).sum
      ≤ ((buildSnapshot pls f).topArtistsBySongs.map (·.percent)).length • (100 : ℚ) :=
        List.sum_le_card_nsmul _ _ hb
    _ = ((buildSnapshot pls f).topArtistsBySongs.length : ℚ) * 100 := by
        rw [nsmul_eq_mul, List.length_map]
    _ ≤ 5 * 100 := by linarith
    _ = 500 := by norm_num

theorem claim_c1_amended_witness :
    WellFormed demoInput ∧
    (∀ e ∈ (buildSnapshot demoInput noMeta).topArtistsBySongs,
        e.percent = pct (e.value : ℚ)
          ((buildSnapshot demoInput noMeta).totals.totalUniqueTracks : ℚ) ∧
        e.percent ≤ 100) ∧
    (((buildSnapshot demoInput noMeta).topArtistsBySongs.map (·.percent)).sum ≤ 500) := by
  have h := claim_c1_amended demoInput noMeta (by decide)
  exact ⟨by decide, h.1, h.2⟩

/-- C2 as stated fails: on a file that fails structural validation the
snapshot data, decisions and deck index are indeed left untouched, but the
view mode is not — the catch block resets it to the start screen, so a prior
`deck` mode is lost. -/
theorem claim_c2_counterexample :
    ¬ (∀ (st : HomeState) (p : JsonValue), isProgressFileV1 p = false →
        ((onResumeFileSelected st (.ok p)).data = st.data ∧
         (onResumeFileSelected st (.ok p)).decisions = st.decisions ∧
         (onResumeFileSelected st (.ok p)).deckIndex = st.deckIndex ∧
         (onResumeFileSelected st (.ok p)).mode = st.mode)) := by
  intro h
  have hx := (h c2Prior .null rfl).2.2.2
  exact absurd hx (by decide)

/-- C2 amended: a restored progress file that fails `isProgressFileV1` is
rejected before any state is replaced — snapshot data, decisions, deck index
and insight page are left untouched — but the view mode is reset to the start
screen and the error message `"Invalid progress file."` is set. -/
theorem claim_c2_amended (st : HomeState) (p : JsonValue)
    (h : isProgressFileV1 p = false) :
    onResumeFileSelected st (.ok p)
      = { st with error := some "Invalid progress file.", mode := Mode.start } := by
  simp [onResumeFileSelected, h]

theorem claim_c2_amended_witness :
    isProgressFileV1 .null = false ∧
    onResumeFileSelected c2Prior (.ok .null)
      = { c2Prior with error := some "Invalid progress file.", mode := Mode.start } :=
  ⟨rfl, claim_c2_amended c2Prior .null rfl⟩

/-- C9: exporting a progress file and importing it restores equal data: the
exported `ProgressFileV1` object passes `isProgressFileV1`, and
`onResumeFileSelected` restores the identical encoded snapshot, decisions,
deck index and insight page (and the exported normalized view mode). The
platform's `JSON.stringify`/`JSON.parse` pair is modelled as inverse on the
JSON value tree, which is its contract for plain finite data. -/
theorem claim_c9_roundtrip (snap : Snapshot) (decs : List (String × Bool))
    (deckIndex insightPage : ℚ) (mode : Mode) (t : String) (err : Option String)
    (st : HomeState) :
    exportProgress { data := some (encodeSnapshot snap), decisions := encodeDecisions decs,
                     deckIndex := deckIndex, insightPage := insightPage, mode := mode,
                     error := err } t
      = some (progressFile (encodeSnapshot snap) deckIndex (encodeDecisions decs)
          insightPage mode t) ∧
    isProgressFileV1 (progressFile (encodeSnapshot snap) deckIndex (encodeDecisions decs)
        insightPage mode t) = true ∧
    onResumeFileSelected st (.ok (progressFile (encodeSnapshot snap) deckIndex
        (encodeDecisions decs) insightPage mode t))
      = { data := some (encodeSnapshot snap), decisions := encodeDecisions decs,
          deckIndex := deckIndex, insightPage := insightPage,
          mode := if mode = Mode.deck then Mode.deck else Mode.insights,
          error := none } := by
  refine ⟨rfl, rfl, ?_⟩
  cases mode <;> rfl

end Whiplash
